import Mathlib

/-!
Shallow embedding of the upload-log attempt parser (`scripts/upload_results.py`)
and of the repair-CSV counting logic (`scripts/scan_result_tools.py`) of the
sn-testnet-deploy repository, together with proofs settling the frozen claims.

Modelling conventions:
* A log line is a Lean `String` holding the line's content without the trailing
  newline terminator that Python's `readlines` keeps.  All the Python regexes
  used by the parser either ignore the terminator or (for `(.+)$`) are
  equivalent, on terminator-free single lines, to the terminator-free reading
  implemented here.
* Python regex character classes are modelled over their ASCII meaning
  (`\w`, `\d`, `\s`), which covers the syslog-style content the tool parses.
* Machine integers do not occur: all counts are `Nat`.  The elapsed-duration
  value is converted by Python with `float(token)` where `token` matches
  `[\d.]+`; the conversion fails (raises) exactly when the token has no digit
  or more than one dot.  The parser never inspects the numeric value, so the
  embedding stores the raw token and models the possible exception with
  `Except Unit`.
* The CSV rows handed to `count_repair_csv_by_status` by Python's `csv.reader`
  (an external library) are modelled as `List (List String)`.
-/

set_option maxRecDepth 4000

namespace SnDeploy

/-- The two payment types accepted by the `--payment-type` CLI choice. -/
inductive PaymentType where
  | singleNode
  | merkle
deriving DecidableEq, Repr

/-- Python `str.isspace` / regex `\s` over ASCII. -/
def pyIsSpace (c : Char) : Bool :=
  c = ' ' || c = '\t' || c = '\n' || c = '\r' || c = '\x0b' || c = '\x0c'

/-- The character class `[a-f0-9]` used for chunk/content addresses. -/
def isHexLower (c : Char) : Bool :=
  c.isDigit || ('a' ≤ c && c ≤ 'f')

/-- Regex `\w` over ASCII. -/
def isWordChar (c : Char) : Bool :=
  c.isAlphanum || c = '_'

/-- Numeric value of a run of decimal digits (Python `int(...)` on a `\d+` group). -/
def natOfDigits (l : List Char) : Nat :=
  l.foldl (fun a c => a * 10 + (c.toNat - 48)) 0

/-- Python `str.strip()` on a character list. -/
def pyStrip (l : List Char) : List Char :=
  ((l.dropWhile pyIsSpace).reverse.dropWhile pyIsSpace).reverse

/-- Python `str.lower()` (ASCII). -/
def pyLower (s : String) : String :=
  String.mk (s.data.map Char.toLower)

/-- Python `str.strip()` on a string. -/
def pyStripS (s : String) : String :=
  String.mk (pyStrip s.data)

/-- If `pat` is a leading segment of `l`, the remainder of `l`; otherwise `none`. -/
def dropPrefixB : List Char → List Char → Option (List Char)
  | [], l => some l
  | _ :: _, [] => none
  | p :: ps, c :: cs => if p = c then dropPrefixB ps cs else none

/-- Whether `pat` occurs as a contiguous segment of `l` (Python `pat in line`). -/
def infixOfB (pat : List Char) : List Char → Bool
  | [] => (dropPrefixB pat []).isSome
  | c :: cs => (dropPrefixB pat (c :: cs)).isSome || infixOfB pat cs

/-- Python substring test `pat in line`. -/
def strContains (l : List Char) (pat : String) : Bool :=
  infixOfB pat.data l

/-- Leftmost-position regex search: try a matcher at every start position. -/
def searchPos {α : Type} (m : List Char → Option α) : List Char → Option α
  | [] => m []
  | c :: cs =>
    match m (c :: cs) with
    | some a => some a
    | none => searchPos m cs

/-- The characters following the first occurrence of `pat`, if `pat` occurs. -/
def afterFirst (pat : List Char) : List Char → Option (List Char)
  | [] => dropPrefixB pat []
  | c :: cs =>
    match dropPrefixB pat (c :: cs) with
    | some rest => some rest
    | none => afterFirst pat cs

/-- Exactly `n` characters satisfying `p`, with the remainder. -/
def takeCount (p : Char → Bool) : Nat → List Char → Option (List Char × List Char)
  | 0, l => some ([], l)
  | _ + 1, [] => none
  | n + 1, c :: cs =>
    if p c then (takeCount p n cs).map (fun t => (c :: t.1, t.2)) else none

/-- At least one character satisfying `p` (greedy), with the remainder. -/
def takeSome (p : Char → Bool) (l : List Char) : Option (List Char × List Char) :=
  let t := l.takeWhile p
  if t.isEmpty then none else some (t, l.dropWhile p)

/-- A single expected literal character. -/
def expectChar (c : Char) : List Char → Option (List Char)
  | [] => none
  | x :: xs => if x = c then some xs else none

/-- Greedy digit run of length 1 or 2 (regex `\d{1,2}` followed by a
non-digit requirement, as in the banner timestamp). -/
def takeDigits12 (l : List Char) : Option (List Char × List Char) :=
  let t := l.takeWhile Char.isDigit
  if t.length = 1 || t.length = 2 then some (t, l.dropWhile Char.isDigit) else none

/-- Model of `re.match(r'^(\w{3}\s+\d{1,2}\s+\d{2}:\d{2}:\d{2})', line)`: the syslog
timestamp at the very start of the banner line (source line 77). -/
def matchTimestamp (l : List Char) : Option String := do
  let (w, l) ← takeCount isWordChar 3 l
  let (s1, l) ← takeSome pyIsSpace l
  let (day, l) ← takeDigits12 l
  let (s2, l) ← takeSome pyIsSpace l
  let (hh, l) ← takeCount Char.isDigit 2 l
  let l ← expectChar ':' l
  let (mm, l) ← takeCount Char.isDigit 2 l
  let l ← expectChar ':' l
  let (ss, _) ← takeCount Char.isDigit 2 l
  pure (String.mk (w ++ s1 ++ day ++ s2 ++ hh ++ [':'] ++ mm ++ [':'] ++ ss))

/-- Model of `re.search(r'File/Directory:\s*(.+)$', line)` followed by `.strip()`
(source lines 87-89).  On a terminator-free line this matches exactly when
something follows the first occurrence of the label, and the stripped group
equals the stripped remainder of the line. -/
def fileNameSearch (l : List Char) : Option String :=
  match afterFirst "File/Directory:".data l with
  | some rest => if rest.isEmpty then none else some (String.mk (pyStrip rest))
  | none => none

/-- Matcher at one position for `Size:\s*(\d+)KB` (source line 92). -/
def matchSizeAt (l : List Char) : Option Nat := do
  let l ← dropPrefixB "Size:".data l
  let l := l.dropWhile pyIsSpace
  let (ds, l) ← takeSome Char.isDigit l
  let _ ← dropPrefixB "KB".data l
  pure (natOfDigits ds)

def sizeSearch (l : List Char) : Option Nat :=
  searchPos matchSizeAt l

/-- Matcher at one position for `At address:\s*([a-f0-9]+)` (source line 101). -/
def matchAddressAt (l : List Char) : Option String := do
  let l ← dropPrefixB "At address:".data l
  let l := l.dropWhile pyIsSpace
  let (hx, _) ← takeSome isHexLower l
  pure (String.mk hx)

def addressSearch (l : List Char) : Option String :=
  searchPos matchAddressAt l

/-- Exactly 64 hex characters, with the remainder. -/
def takeHex64 (l : List Char) : Option (List Char × List Char) :=
  takeCount isHexLower 64 l

/-- Matcher at one position for `": "([a-f0-9]{64})"` (source line 110). -/
def matchQuotedAddrAt (l : List Char) : Option String := do
  let l ← dropPrefixB "\": \"".data l
  let (hx, l) ← takeHex64 l
  let _ ← expectChar '"' l
  pure (String.mk hx)

def quotedAddrSearch (l : List Char) : Option String :=
  searchPos matchQuotedAddrAt l

/-- Model of `Path(file_name).name if '/' in file_name else file_name` (source line 108):
the last real path component.  `pathlib` drops empty and `'.'` segments. -/
def splitSlash (l : List Char) : List (List Char) :=
  l.foldr
    (fun c acc =>
      match acc with
      | [] => if c = '/' then [[], []] else [[c]]
      | seg :: rest => if c = '/' then [] :: seg :: rest else (c :: seg) :: rest)
    [[]]

def pathBaseName (f : String) : String :=
  if strContains f.data "/" then
    let segs := (splitSlash f.data).filter (fun s => !s.isEmpty && s ≠ ['.'])
    String.mk (segs.getLast?.getD [])
  else f

/-- Matcher at one position for `Elapsed time:\s*([\d.]+)\s*seconds`
(source line 115).  Returns the raw `[\d.]+` token. -/
def matchElapsedAt (l : List Char) : Option String := do
  let l ← dropPrefixB "Elapsed time:".data l
  let l := l.dropWhile pyIsSpace
  let (tok, l) ← takeSome (fun c => c.isDigit || c = '.') l
  let l := l.dropWhile pyIsSpace
  let _ ← dropPrefixB "seconds".data l
  pure (String.mk tok)

def elapsedSearch (l : List Char) : Option String :=
  searchPos matchElapsedAt l

/-- Whether Python `float(token)` succeeds on a `[\d.]+` token: at least one
digit and at most one dot. -/
def pyFloatTokenOk (tok : String) : Bool :=
  tok.data.any Char.isDigit && tok.data.count '.' ≤ 1

/-- Matcher at one position for
`Starting upload of (\d+) chunks in \d+ Merkle Tree` (source line 133). -/
def matchStartingUploadAt (l : List Char) : Option Nat := do
  let l ← dropPrefixB "Starting upload of ".data l
  let (ds, l) ← takeSome Char.isDigit l
  let l ← dropPrefixB " chunks in ".data l
  let (_, l) ← takeSome Char.isDigit l
  let _ ← dropPrefixB " Merkle Tree".data l
  pure (natOfDigits ds)

def startingUploadSearch (l : List Char) : Option Nat :=
  searchPos matchStartingUploadAt l

/-- Matcher at one position for `Encrypted (\d+)/(\d+) chunks in`
(source line 139); the second group is the one used. -/
def matchEncryptedAt (l : List Char) : Option Nat := do
  let l ← dropPrefixB "Encrypted ".data l
  let (_, l) ← takeSome Char.isDigit l
  let l ← expectChar '/' l
  let (ds, l) ← takeSome Char.isDigit l
  let _ ← dropPrefixB " chunks in".data l
  pure (natOfDigits ds)

def encryptedSearch (l : List Char) : Option Nat :=
  searchPos matchEncryptedAt l

/-- Matcher at one position for `Processing estimated total (\d+) chunks`
(source line 126). -/
def matchProcessingAt (l : List Char) : Option Nat := do
  let l ← dropPrefixB "Processing estimated total ".data l
  let (ds, l) ← takeSome Char.isDigit l
  let _ ← dropPrefixB " chunks".data l
  pure (natOfDigits ds)

def processingSearch (l : List Char) : Option Nat :=
  searchPos matchProcessingAt l

/-- Matcher at one position for `\(\d+/\d+\) Chunk stored at: ([a-f0-9]{64})`
(source line 144). -/
def matchChunkStoredAt (l : List Char) : Option String := do
  let l ← expectChar '(' l
  let (_, l) ← takeSome Char.isDigit l
  let l ← expectChar '/' l
  let (_, l) ← takeSome Char.isDigit l
  let l ← dropPrefixB ") Chunk stored at: ".data l
  let (hx, _) ← takeHex64 l
  pure (String.mk hx)

def chunkStoredSearch (l : List Char) : Option String :=
  searchPos matchChunkStoredAt l

/-- Matcher at one position for `Retry succeeded for chunk: ([a-f0-9]{64})`
(source line 149). -/
def matchRetryAt (l : List Char) : Option String := do
  let l ← dropPrefixB "Retry succeeded for chunk: ".data l
  let (hx, _) ← takeHex64 l
  pure (String.mk hx)

def retrySearch (l : List Char) : Option String :=
  searchPos matchRetryAt l

/-- The 42-`=` divider literal of source lines 43 and 161. -/
def bannerStr : String :=
  "=========================================="

/-- The record produced per detected upload attempt (source lines 11-20).
`duration_seconds` holds the raw `[\d.]+` token that Python passes to
`float`; the parser never inspects the numeric value. -/
structure UploadAttempt where
  file_name : String
  size_kb : Nat
  success : Bool
  address : Option String
  duration_seconds : String
  start_time : String
  total_chunks : Option Nat
  successful_chunks : Option Nat
deriving DecidableEq, Repr

/-- The local variables of `parse_upload_attempt` (source lines 66-75),
plus `start_time` which is fixed before the loop (lines 77-79). -/
structure ScanState where
  file_name : Option String
  size_kb : Option Nat
  success : Bool
  address : Option String
  duration_seconds : Option String
  duration_found_at : Option Nat
  start_time : Option String
  total_chunks : Option Nat
  successful_chunk_addresses : List String
  all_chunks_already_exist : Bool
deriving DecidableEq, Repr

/-- Python truthiness of an optional string (`if file_name ...`). -/
def pyTruthy : Option String → Bool
  | none => false
  | some s => !(s = "")

/-- Source lines 86-89: capture the file name from the first
`File/Directory:` line. -/
def newFileName (l : List Char) (old : Option String) : Option String :=
  if old.isNone && strContains l "File/Directory:" then
    match fileNameSearch l with
    | some f => some f
    | none => old
  else old

/-- Source lines 91-94: capture the size from the first `Size: ...KB` line. -/
def newSize (l : List Char) (old : Option Nat) : Option Nat :=
  if old.isNone && strContains l "Size:" && strContains l "KB" then
    match sizeSearch l with
    | some n => some n
    | none => old
  else old

/-- Source lines 96-98 and 120-121: the success flag after both the
success-phrase check and the failed-upload override, in source order
(the override is tested last, with the file name as updated by this line). -/
def newSuccess (l : List Char) (fn : Option String) (old : Bool) : Bool :=
  let s1 := if strContains l "Successfully uploaded" && !strContains l "Failed" then true else old
  if strContains l "Failed to upload" && pyTruthy fn &&
      (match fn with | some f => strContains l f | none => false) then
    false
  else s1

/-- Source lines 100-112: primary `At address:` capture, then the
quoted-basename fallback, both only while `address` is unset; the fallback
additionally needs a truthy file name (as updated by this line). -/
def newAddress (l : List Char) (fn : Option String) (old : Option String) : Option String :=
  let a1 :=
    if old.isNone && strContains l "At address:" then
      match addressSearch l with
      | some h => some h
      | none => old
    else old
  if a1.isNone && pyTruthy fn then
    match fn with
    | some f =>
      if strContains l ("\"" ++ pathBaseName f ++ "\"") && strContains l "\": \"" then
        match quotedAddrSearch l with
        | some h => some h
        | none => a1
      else a1
    | none => a1
  else a1

/-- Source lines 114-118: capture the elapsed-time token on the first
`Elapsed time:` line and record the line index; Python's `float` raises
(modelled as `Except.error`) when the token is not a valid float literal. -/
def newDuration (i : Nat) (l : List Char) (old : Option String) (oldAt : Option Nat) :
    Except Unit (Option String × Option Nat) :=
  if old.isNone && strContains l "Elapsed time:" then
    match elapsedSearch l with
    | some tok =>
      if pyFloatTokenOk tok then .ok (some tok, some i) else .error ()
    | none => .ok (old, oldAt)
  else .ok (old, oldAt)

/-- Source lines 123-141: the payment-type-specific total-chunk-count rules.
Single-node: first `Processing estimated total N chunks` line wins.
Merkle: `Starting upload of N chunks in M Merkle Tree` always overwrites;
`Encrypted X/Y chunks in` supplies `Y` only in the `elif` (the guard of the
authoritative branch failed) and only while the total is unset. -/
def newTotal (p : PaymentType) (l : List Char) (old : Option Nat) : Option Nat :=
  match p with
  | .singleNode =>
    if old.isNone && strContains l "Processing estimated total" then
      match processingSearch l with
      | some n => some n
      | none => old
    else old
  | .merkle =>
    if strContains l "Starting upload of" && strContains l "Merkle Tree" then
      match startingUploadSearch l with
      | some n => some n
      | none => old
    else if old.isNone && strContains l "Encrypted" && strContains l "chunks in" then
      match encryptedSearch l with
      | some n => some n
      | none => old
    else old

/-- Python `set.add`: size-faithful set insertion on a list. -/
def insertAddr (a : String) (s : List String) : List String :=
  if s.contains a then s else a :: s

/-- Source lines 143-151: accumulate chunk-stored and retry-succeeded
addresses into the success set. -/
def newChunkSet (l : List Char) (old : List String) : List String :=
  let s1 :=
    match chunkStoredSearch l with
    | some a => insertAddr a old
    | none => old
  match retrySearch l with
  | some a => insertAddr a s1
  | none => s1

/-- Source lines 153-155: the all-chunks-already-exist marker. -/
def allExistHit (l : List Char) : Bool :=
  strContains l "chunks already exist on the network" && strContains l "nothing to upload"

/-- One iteration of the window loop body (source lines 84-155) on the line
at index `i`.  Each field's new value is computed from the pre-line state,
except that the success override and the quoted-address fallback read the
file name as already updated by this same line, exactly as the sequential
Python assignments do. -/
def stepLine (p : PaymentType) (i : Nat) (line : String) (st : ScanState) :
    Except Unit ScanState :=
  let l := line.data
  let fn := newFileName l st.file_name
  match newDuration i l st.duration_seconds st.duration_found_at with
  | .error e => .error e
  | .ok d =>
    .ok { file_name := fn
          size_kb := newSize l st.size_kb
          success := newSuccess l fn st.success
          address := newAddress l fn st.address
          duration_seconds := d.1
          duration_found_at := d.2
          start_time := st.start_time
          total_chunks := newTotal p l st.total_chunks
          successful_chunk_addresses := newChunkSet l st.successful_chunk_addresses
          all_chunks_already_exist := st.all_chunks_already_exist || allExistHit l }

/-- Source lines 157-162: the two early-exit tests, evaluated after the
line at index `i` has been fully processed. -/
def breakCond (startIdx i : Nat) (line : String) (st : ScanState) : Bool :=
  (match st.duration_found_at with
   | some d => decide (i > d + 5)
   | none => false) ||
  (decide (i > startIdx + 2) && strContains line.data bannerStr)

/-- The `for i in range(start_idx, max_lines)` loop with its two `break`s,
returning the final state together with the index right after the last
processed line.  `fuel` is the number of remaining iterations
(`max_lines - i`), so the recursion is structural. -/
def scanLoopE (p : PaymentType) (lines : List String) (startIdx : Nat) :
    Nat → Nat → ScanState → Except Unit (ScanState × Nat)
  | 0, i, st => .ok (st, i)
  | fuel + 1, i, st =>
    match stepLine p i (lines.getD i "") st with
    | .error e => .error e
    | .ok st' =>
      if breakCond startIdx i (lines.getD i "") st' then .ok (st', i + 1)
      else scanLoopE p lines startIdx fuel (i + 1) st'

/-- The state in which the window scan starts: everything unset except
`start_time`, taken from the banner line (source lines 66-79). -/
def initState (lines : List String) (startIdx : Nat) : ScanState :=
  { file_name := none
    size_kb := none
    success := false
    address := none
    duration_seconds := none
    duration_found_at := none
    start_time := matchTimestamp (lines.getD startIdx "").data
    total_chunks := none
    successful_chunk_addresses := []
    all_chunks_already_exist := false }

/-- The window end `min(start_idx + 10000, len(lines))` (source line 81). -/
def maxLinesOf (lines : List String) (startIdx : Nat) : Nat :=
  min (startIdx + 10000) lines.length

/-- The whole window scan: final extractor state (and exit index) of
`parse_upload_attempt`'s loop. -/
def scanWindowE (lines : List String) (startIdx : Nat) (p : PaymentType) :
    Except Unit (ScanState × Nat) :=
  scanLoopE p lines startIdx (maxLinesOf lines startIdx - startIdx) startIdx
    (initState lines startIdx)

/-- The final extractor state of the window scan. -/
def scanWindow (lines : List String) (startIdx : Nat) (p : PaymentType) :
    Except Unit ScanState :=
  match scanWindowE lines startIdx p with
  | .error e => .error e
  | .ok s => .ok s.1

/-- Source lines 164-186: the attempt assembler.  The guard is Python
truthiness for the two strings and `is not None` for the two others;
`successful_chunks` is derived from the total, the already-exist flag and
the size of the accumulated success-address set. -/
def assembleAttempt (st : ScanState) : Option UploadAttempt :=
  if pyTruthy st.file_name && st.size_kb.isSome && st.duration_seconds.isSome &&
      pyTruthy st.start_time then
    some { file_name := st.file_name.getD ""
           size_kb := st.size_kb.getD 0
           success := st.success
           address := st.address
           duration_seconds := st.duration_seconds.getD ""
           start_time := st.start_time.getD ""
           total_chunks := st.total_chunks
           successful_chunks :=
             match st.total_chunks with
             | some t =>
               some (if st.all_chunks_already_exist then t
                     else min st.successful_chunk_addresses.length t)
             | none => none }
  else none

/-- Model of `parse_upload_attempt(lines, start_idx, payment_type)` (source lines
54-186): scan the window, then assemble; `Except.error` models the
exception Python raises when `float` fails on an elapsed-time token. -/
def parse_upload_attempt (lines : List String) (startIdx : Nat) (p : PaymentType) :
    Except Unit (Option UploadAttempt) :=
  match scanWindow lines startIdx p with
  | .error e => .error e
  | .ok st => .ok (assembleAttempt st)

/-! ## `scan_result_tools.py`: repair-CSV counting -/

/-- The value of a successful Python `float(...)` call: a finite value kept
as its literal components — sign, mantissa digits value, number of fraction
digits, decimal exponent — or an infinity or NaN.  (Double-precision
rounding and underflow of extreme exponents are not modelled; no claim
depends on the numeric value.) -/
inductive PyFloat where
  | finite (neg : Bool) (mant : Nat) (shift : Nat) (exp : ℤ)
  | infinite (neg : Bool)
  | nan
deriving DecidableEq

/-- The rational value denoted by a finite parsed float;
`0` for the infinities and NaN, which have no rational value. -/
def PyFloat.valQ : PyFloat → ℚ
  | .finite neg mant shift exp =>
    (if neg then -1 else 1) * (mant : ℚ) / (10 : ℚ) ^ shift * (10 : ℚ) ^ exp
  | _ => 0

/-- Python test `cost_paid != 0.0` on a parsed float: a finite value is nonzero exactly
when its mantissa is, and NaN and the infinities compare unequal to zero in
Python. -/
def PyFloat.ne0 : PyFloat → Bool
  | .finite _ mant _ _ => decide (mant ≠ 0)
  | .infinite _ => true
  | .nan => true

/-- The mantissa test used by `PyFloat.ne0` agrees with the denoted
rational value. -/
theorem PyFloat.ne0_finite_iff (neg : Bool) (mant shift : Nat) (exp : ℤ) :
    (PyFloat.finite neg mant shift exp).ne0 = true ↔
      (PyFloat.finite neg mant shift exp).valQ ≠ 0 := by
  have h10 : (10 : ℚ) ≠ 0 := by norm_num
  simp only [PyFloat.ne0, PyFloat.valQ, decide_eq_true_eq, div_eq_mul_inv,
    mul_ne_zero_iff]
  constructor
  · intro h
    refine ⟨⟨⟨?_, ?_⟩, ?_⟩, ?_⟩
    · cases neg <;> norm_num
    · exact_mod_cast h
    · exact inv_ne_zero (pow_ne_zero _ h10)
    · exact zpow_ne_zero _ h10
  · intro h
    have := h.1.1.2
    exact_mod_cast this

/-- A run of decimal digits possibly with single underscores between digits
(CPython numeric-literal grammar for `float`): value, digit count, rest. -/
def digRunGo (acc len : Nat) : List Char → (Nat × Nat × List Char)
  | '_' :: d :: rest =>
    if d.isDigit then digRunGo (acc * 10 + (d.toNat - 48)) (len + 1) rest
    else (acc, len, '_' :: d :: rest)
  | d :: rest =>
    if d.isDigit then digRunGo (acc * 10 + (d.toNat - 48)) (len + 1) rest
    else (acc, len, d :: rest)
  | [] => (acc, len, [])

def digRun : List Char → Option (Nat × Nat × List Char)
  | c :: rest =>
    if c.isDigit then some (digRunGo (c.toNat - 48) 1 rest) else none
  | [] => none

/-- Optional sign; returns whether negative and the rest. -/
def parseSign : List Char → Bool × List Char
  | '+' :: rest => (false, rest)
  | '-' :: rest => (true, rest)
  | l => (false, l)

/-- Optional exponent part `( e | E ) sign? digits`; must consume to the end.
Returns `some exp` (signed) on success, `none` when malformed; `some 0`
with input `[]` when absent. -/
def parseExpDigits (l : List Char) : Option ℤ :=
  let s := parseSign l
  match digRun s.2 with
  | some (v, _, []) => some (if s.1 then -(v : ℤ) else (v : ℤ))
  | _ => none

def parseExpTail : List Char → Option ℤ
  | [] => some 0
  | 'e' :: rest => parseExpDigits rest
  | 'E' :: rest => parseExpDigits rest
  | _ => none

/-- The significand `digits ['.' [digits]] | '.' digits`, then the exponent
tail; the whole input must be consumed.  Returns mantissa digits value,
fraction-digit count, and exponent. -/
def parseNumber (l : List Char) : Option (Nat × Nat × ℤ) :=
  let mant : Option (Nat × Nat × List Char) :=
    match l with
    | '.' :: rest =>
      match digRun rest with
      | some (f, flen, r) => some (f, flen, r)
      | none => none
    | _ =>
      match digRun l with
      | some (ip, _, r) =>
        match r with
        | '.' :: r2 =>
          match digRun r2 with
          | some (f, flen, r3) => some (ip * 10 ^ flen + f, flen, r3)
          | none => some (ip, 0, r2)
        | _ => some (ip, 0, r)
      | none => none
  match mant with
  | none => none
  | some (m, shift, rest) =>
    match parseExpTail rest with
    | some e => some (m, shift, e)
    | none => none

/-- Case-insensitive full match against an ASCII-lowercase word. -/
def matchWordCI (l : List Char) (w : String) : Bool :=
  l.map Char.toLower == w.data

/-- Python `float(s)`: strip whitespace, optional sign, then `inf`,
`infinity`, `nan` (case-insensitive) or a decimal number with optional
exponent; `none` models the `ValueError`. -/
def pyFloatParse (s : String) : Option PyFloat :=
  let l := pyStrip s.data
  let sg := parseSign l
  if matchWordCI sg.2 "inf" || matchWordCI sg.2 "infinity" then
    some (.infinite sg.1)
  else if matchWordCI sg.2 "nan" then
    some .nan
  else
    match parseNumber sg.2 with
    | some (m, shift, e) => some (.finite sg.1 m shift e)
    | none => none

/-- The body of `count_repair_csv_by_status`'s row loop (source lines 54-65):
skip empty or too-short rows; on `success` count the row and, via Python
`float` (which may raise, modelled as `Except.error`), the nonzero costs;
on `failed` count the failure.  The accumulator is
`(success_count, failed_count, paid_count)`. -/
def repairRowStep (statusIdx costIdx : Nat) (acc : Nat × Nat × Nat) (row : List String) :
    Except Unit (Nat × Nat × Nat) :=
  if row.isEmpty || row.length ≤ max statusIdx costIdx then .ok acc
  else
    let status := pyLower (pyStripS (row.getD statusIdx ""))
    if status = "success" then
      match pyFloatParse (pyStripS (row.getD costIdx "")) with
      | some v => .ok (acc.1 + 1, acc.2.1, if v.ne0 then acc.2.2 + 1 else acc.2.2)
      | none => .error ()
    else if status = "failed" then .ok (acc.1, acc.2.1 + 1, acc.2.2)
    else .ok acc

/-- The row loop folded over the whole file. -/
def repairRowsFold (statusIdx costIdx : Nat) :
    List (List String) → (Nat × Nat × Nat) → Except Unit (Nat × Nat × Nat)
  | [], acc => .ok acc
  | row :: rest, acc =>
    match repairRowStep statusIdx costIdx acc row with
    | .error e => .error e
    | .ok acc' => repairRowsFold statusIdx costIdx rest acc'

/-- Model of `count_repair_csv_by_status(csv_path, status_column_index,
cost_column_index)` (source lines 35-70) on the file's parsed rows:
`none` models the `(None, None, None)` returned when the `try` block
raises (a malformed cost on a `success` row). -/
def count_repair_csv_by_status (rows : List (List String)) (statusIdx costIdx : Nat) :
    Option (Nat × Nat × Nat) :=
  match repairRowsFold statusIdx costIdx rows (0, 0, 0) with
  | .ok acc => some acc
  | .error _ => none

/-- Accumulate one file's counts into a host summary, skipping files whose
count came back `None` (source lines 131-134 and 138-141). -/
def addFileCounts (acc : Nat × Nat × Nat) (c : Option (Nat × Nat × Nat)) :
    Nat × Nat × Nat :=
  match c with
  | some x => (acc.1 + x.1, acc.2.1 + x.2.1, acc.2.2 + x.2.2)
  | none => acc

/-- The repair part of `get_host_summary` for one host (source lines
129-141): `network_scan_repair_*` files are counted with status column 3 and
cost column 4, `initial_repair_*` files with status column 2 and cost
column 3. -/
def hostRepairTotals (networkScanFiles initialRepairFiles : List (List (List String))) :
    Nat × Nat × Nat :=
  let afterScan := networkScanFiles.foldl
    (fun acc file => addFileCounts acc (count_repair_csv_by_status file 3 4)) (0, 0, 0)
  initialRepairFiles.foldl
    (fun acc file => addFileCounts acc (count_repair_csv_by_status file 2 3)) afterScan

/-! ## Helper lemmas: pattern matchers -/

theorem dropPrefixB_some {pat l rest : List Char} (h : dropPrefixB pat l = some rest) :
    l = pat ++ rest := by
  induction pat generalizing l with
  | nil =>
    simp only [dropPrefixB, Option.some.injEq] at h
    simp [h]
  | cons p ps ih =>
    cases l with
    | nil => simp [dropPrefixB] at h
    | cons c cs =>
      simp only [dropPrefixB] at h
      split at h
      · next hpc => simp [hpc, ih h]
      · exact absurd h (by simp)

theorem dropPrefixB_append (pat rest : List Char) :
    dropPrefixB pat (pat ++ rest) = some rest := by
  induction pat with
  | nil => rfl
  | cons p ps ih => simp [dropPrefixB, ih]

theorem infixOfB_intro {pat l : List Char} (pre post : List Char)
    (h : l = pre ++ pat ++ post) : infixOfB pat l = true := by
  induction pre generalizing l with
  | nil =>
    subst h
    cases hc : pat ++ post with
    | nil =>
      rcases List.append_eq_nil.mp hc with ⟨h1, h2⟩
      subst h1; subst h2
      decide
    | cons c cs =>
      simp only [List.nil_append, hc, infixOfB, Bool.or_eq_true]
      left
      rw [← hc, dropPrefixB_append]
      rfl
  | cons c pre' ih =>
    subst h
    simp only [List.cons_append, infixOfB, Bool.or_eq_true]
    exact Or.inr (ih rfl)

theorem infixOfB_elim {pat l : List Char} (h : infixOfB pat l = true) :
    ∃ pre post, l = pre ++ pat ++ post := by
  induction l with
  | nil =>
    simp only [infixOfB, Option.isSome_iff_exists] at h
    rcases h with ⟨rest, hr⟩
    have := dropPrefixB_some hr
    exact ⟨[], rest, by simp [this]⟩
  | cons c cs ih =>
    simp only [infixOfB, Bool.or_eq_true, Option.isSome_iff_exists] at h
    rcases h with ⟨rest, hr⟩ | h
    · exact ⟨[], rest, by simp [dropPrefixB_some hr]⟩
    · rcases ih h with ⟨pre, post, hp⟩
      exact ⟨c :: pre, post, by simp [hp]⟩

theorem infixOfB_of_append_left {p q l : List Char} (h : infixOfB (p ++ q) l = true) :
    infixOfB p l = true := by
  rcases infixOfB_elim h with ⟨pre, post, hl⟩
  exact infixOfB_intro pre (q ++ post) (by simp [hl])

theorem takeSome_decomp {p : Char → Bool} {l t r : List Char}
    (h : takeSome p l = some (t, r)) : l = t ++ r ∧ t ≠ [] := by
  simp only [takeSome] at h
  split at h
  · exact absurd h (by simp)
  · next he =>
    simp only [Option.some.injEq, Prod.mk.injEq] at h
    refine ⟨?_, ?_⟩
    · rw [← h.1, ← h.2]; exact (List.takeWhile_append_dropWhile p l).symm
    · rw [← h.1]; simpa using he

theorem takeCount_decomp {p : Char → Bool} {n : Nat} {l t r : List Char}
    (h : takeCount p n l = some (t, r)) : l = t ++ r ∧ t.length = n := by
  induction n generalizing l t r with
  | zero =>
    simp only [takeCount, Option.some.injEq, Prod.mk.injEq] at h
    simp [← h.1, ← h.2]
  | succ n ih =>
    cases l with
    | nil => simp [takeCount] at h
    | cons c cs =>
      simp only [takeCount] at h
      split at h
      · simp only [Option.map_eq_some'] at h
        rcases h with ⟨⟨t', r'⟩, h1, h2⟩
        rcases ih h1 with ⟨hd, hl⟩
        simp only [Prod.mk.injEq] at h2
        simp [← h2.1, ← h2.2, hd, hl]
      · exact absurd h (by simp)

theorem expectChar_some {c : Char} {l r : List Char} (h : expectChar c l = some r) :
    l = c :: r := by
  cases l with
  | nil => simp [expectChar] at h
  | cons x xs =>
    simp only [expectChar] at h
    split at h
    · next hx => simp only [Option.some.injEq] at h; simp [hx, h]
    · exact absurd h (by simp)

theorem searchPos_some {α : Type} {m : List Char → Option α} {l : List Char} {a : α}
    (h : searchPos m l = some a) : ∃ pre suf, l = pre ++ suf ∧ m suf = some a := by
  induction l with
  | nil => exact ⟨[], [], rfl, by simpa [searchPos] using h⟩
  | cons c cs ih =>
    simp only [searchPos] at h
    split at h
    · next a' hm => exact ⟨[], c :: cs, rfl, by rw [hm]; exact h⟩
    · rcases ih h with ⟨pre, suf, h1, h2⟩
      exact ⟨c :: pre, suf, by simp [h1], h2⟩

theorem afterFirst_some {pat l rest : List Char} (h : afterFirst pat l = some rest) :
    ∃ pre, l = pre ++ pat ++ rest := by
  induction l with
  | nil =>
    have h' : dropPrefixB pat [] = some rest := by simpa [afterFirst] using h
    rcases List.append_eq_nil.mp (dropPrefixB_some h').symm with ⟨hp, hr⟩
    exact ⟨[], by simp [hp, hr]⟩
  | cons c cs ih =>
    simp only [afterFirst] at h
    split at h
    · next r hr =>
      simp only [Option.some.injEq] at h
      exact ⟨[], by simp [dropPrefixB_some hr, h]⟩
    · rcases ih h with ⟨pre, hp⟩
      exact ⟨c :: pre, by simp [hp]⟩

theorem startingUploadSearch_contains {l : List Char} {n : Nat}
    (h : startingUploadSearch l = some n) :
    strContains l "Starting upload of" = true ∧ strContains l "Merkle Tree" = true := by
  rcases searchPos_some h with ⟨pre, suf, hl, hm⟩
  unfold matchStartingUploadAt at hm
  rcases h1 : dropPrefixB "Starting upload of ".data suf with _ | l1 <;> rw [h1] at hm
  · simp at hm
  simp only [Option.bind_eq_bind', Option.some_bind] at hm
  rcases h2 : takeSome Char.isDigit l1 with _ | ⟨ds, l2⟩ <;> rw [h2] at hm
  · simp at hm
  simp only [Option.bind_eq_bind', Option.some_bind] at hm
  rcases h3 : dropPrefixB " chunks in ".data l2 with _ | l3 <;> rw [h3] at hm
  · simp at hm
  simp only [Option.bind_eq_bind', Option.some_bind] at hm
  rcases h4 : takeSome Char.isDigit l3 with _ | ⟨ds2, l4⟩ <;> rw [h4] at hm
  · simp at hm
  simp only [Option.bind_eq_bind', Option.some_bind] at hm
  rcases h5 : dropPrefixB " Merkle Tree".data l4 with _ | l5 <;> rw [h5] at hm
  · simp at hm
  have e1 := dropPrefixB_some h1
  have e2 := (takeSome_decomp h2).1
  have e3 := dropPrefixB_some h3
  have e4 := (takeSome_decomp h4).1
  have e5 := dropPrefixB_some h5
  constructor
  · have hdec : "Starting upload of ".data = "Starting upload of".data ++ [' '] := by decide
    refine infixOfB_intro pre (' ' :: l1) ?_
    rw [hl, e1, hdec]
    simp
  · have hdec : " Merkle Tree".data = [' '] ++ "Merkle Tree".data := by decide
    refine infixOfB_intro (pre ++ "Starting upload of ".data ++ ds ++ " chunks in ".data ++ ds2 ++ [' ']) l5 ?_
    rw [hl, e1, e2, e3, e4, e5, hdec]
    simp

theorem processingSearch_contains {l : List Char} {n : Nat}
    (h : processingSearch l = some n) :
    strContains l "Processing estimated total" = true := by
  rcases searchPos_some h with ⟨pre, suf, hl, hm⟩
  unfold matchProcessingAt at hm
  rcases h1 : dropPrefixB "Processing estimated total ".data suf with _ | l1 <;> rw [h1] at hm
  · simp at hm
  have e1 := dropPrefixB_some h1
  have hdec : "Processing estimated total ".data = "Processing estimated total".data ++ [' '] := by
    decide
  refine infixOfB_intro pre (' ' :: l1) ?_
  rw [hl, e1, hdec]
  simp

/-- One `strContains` fact entailed by another when the first pattern is a
leading part of the second (`'Failed' in line` whenever
`'Failed to upload' in line`). -/
theorem strContains_failed_of_failed_to_upload {l : List Char}
    (h : strContains l "Failed to upload" = true) : strContains l "Failed" = true := by
  have hdec : "Failed to upload".data = "Failed".data ++ " to upload".data := by decide
  exact infixOfB_of_append_left (by rw [← hdec]; exact h)

/-- All the fields of the state produced by a non-raising `stepLine`. -/
theorem stepLine_ok_fields {p : PaymentType} {i : Nat} {line : String}
    {st st' : ScanState} (h : stepLine p i line st = .ok st') :
    st'.file_name = newFileName line.data st.file_name ∧
    st'.size_kb = newSize line.data st.size_kb ∧
    st'.success = newSuccess line.data (newFileName line.data st.file_name) st.success ∧
    st'.address = newAddress line.data (newFileName line.data st.file_name) st.address ∧
    st'.start_time = st.start_time ∧
    st'.total_chunks = newTotal p line.data st.total_chunks ∧
    st'.successful_chunk_addresses = newChunkSet line.data st.successful_chunk_addresses ∧
    st'.all_chunks_already_exist = (st.all_chunks_already_exist || allExistHit line.data) ∧
    ∃ d, newDuration i line.data st.duration_seconds st.duration_found_at = .ok d ∧
      st'.duration_seconds = d.1 ∧ st'.duration_found_at = d.2 := by
  simp only [stepLine] at h
  rcases hd : newDuration i line.data st.duration_seconds st.duration_found_at with e | d <;>
    rw [hd] at h
  · exact absurd h (by simp)
  · simp only [Except.ok.injEq] at h
    subst h
    refine ⟨rfl, rfl, rfl, rfl, rfl, rfl, rfl, rfl, d, rfl, rfl, rfl⟩

/-- Fact that `stepLine` raises exactly when `newDuration` does; it never invents an
error elsewhere.  (Used to push `ok`-ness through the loop.) -/
theorem stepLine_error {p : PaymentType} {i : Nat} {line : String} {st : ScanState}
    (h : stepLine p i line st = .error ()) :
    newDuration i line.data st.duration_seconds st.duration_found_at = .error () := by
  simp only [stepLine] at h
  rcases hd : newDuration i line.data st.duration_seconds st.duration_found_at with e | d
  · cases e; rfl
  · rw [hd] at h; simp at h

theorem scanLoopE_succ_ok {p : PaymentType} {lines : List String} {startIdx fuel i : Nat}
    {st st1 : ScanState} (hs : stepLine p i (lines.getD i "") st = .ok st1) :
    scanLoopE p lines startIdx (fuel + 1) i st =
      if breakCond startIdx i (lines.getD i "") st1 = true then .ok (st1, i + 1)
      else scanLoopE p lines startIdx fuel (i + 1) st1 := by
  simp only [scanLoopE, hs]

theorem scanLoopE_succ_err {p : PaymentType} {lines : List String} {startIdx fuel i : Nat}
    {st : ScanState} {u : Unit} (hs : stepLine p i (lines.getD i "") st = .error u) :
    scanLoopE p lines startIdx (fuel + 1) i st = .error u := by
  simp only [scanLoopE, hs]

/-- The exit index of the window loop lies between the entry index and the
window end. -/
theorem scanLoopE_bounds {p : PaymentType} {lines : List String} {startIdx : Nat} :
    ∀ {fuel i : Nat} {st st' : ScanState} {e : Nat},
      scanLoopE p lines startIdx fuel i st = .ok (st', e) → i ≤ e ∧ e ≤ i + fuel := by
  intro fuel
  induction fuel with
  | zero =>
    intro i st st' e h
    simp only [scanLoopE, Except.ok.injEq, Prod.mk.injEq] at h
    omega
  | succ fuel ih =>
    intro i st st' e h
    rcases hs : stepLine p i (lines.getD i "") st with u | st1
    · rw [scanLoopE_succ_err hs] at h
      exact absurd h (by simp)
    · rw [scanLoopE_succ_ok hs] at h
      by_cases hb : breakCond startIdx i (lines.getD i "") st1 = true
      · rw [if_pos hb] at h
        simp only [Except.ok.injEq, Prod.mk.injEq] at h
        obtain ⟨-, h2⟩ := h
        omega
      · rw [if_neg hb] at h
        have := ih h
        omega

/-- No loop iteration touches `start_time`. -/
theorem scanLoopE_start_time {p : PaymentType} {lines : List String} {startIdx : Nat} :
    ∀ {fuel i : Nat} {st st' : ScanState} {e : Nat},
      scanLoopE p lines startIdx fuel i st = .ok (st', e) → st'.start_time = st.start_time := by
  intro fuel
  induction fuel with
  | zero =>
    intro i st st' e h
    simp only [scanLoopE, Except.ok.injEq, Prod.mk.injEq] at h
    rw [← h.1]
  | succ fuel ih =>
    intro i st st' e h
    rcases hs : stepLine p i (lines.getD i "") st with u | st1
    · rw [scanLoopE_succ_err hs] at h
      exact absurd h (by simp)
    · rw [scanLoopE_succ_ok hs] at h
      have hst := (stepLine_ok_fields hs).2.2.2.2.1
      by_cases hb : breakCond startIdx i (lines.getD i "") st1 = true
      · rw [if_pos hb] at h
        simp only [Except.ok.injEq, Prod.mk.injEq] at h
        rw [← h.1, hst]
      · rw [if_neg hb] at h
        rw [ih h, hst]

/-- The window loop reads only the lines of its index range: two line lists
that agree there drive it identically. -/
theorem scanLoopE_congr_lines {p : PaymentType} {startIdx : Nat} {lines lines' : List String} :
    ∀ (fuel i : Nat) (st : ScanState),
      (∀ j, i ≤ j → j < i + fuel → lines.getD j "" = lines'.getD j "") →
      scanLoopE p lines startIdx fuel i st = scanLoopE p lines' startIdx fuel i st := by
  intro fuel
  induction fuel with
  | zero => intro i st _; rfl
  | succ fuel ih =>
    intro i st hag
    have hline : lines'.getD i "" = lines.getD i "" := (hag i le_rfl (by omega)).symm
    rcases hs : stepLine p i (lines.getD i "") st with u | st1
    · have hs' : stepLine p i (lines'.getD i "") st = .error u := by rw [hline]; exact hs
      rw [scanLoopE_succ_err hs, scanLoopE_succ_err hs']
    · have hs' : stepLine p i (lines'.getD i "") st = .ok st1 := by rw [hline]; exact hs
      rw [scanLoopE_succ_ok hs, scanLoopE_succ_ok hs', hline]
      by_cases hb : breakCond startIdx i (lines.getD i "") st1 = true
      · rw [if_pos hb, if_pos hb]
      · rw [if_neg hb, if_neg hb]
        exact ih (i + 1) st1 (fun j hj1 hj2 => hag j (by omega) (by omega))

/-- A non-raising window loop reads only the lines strictly before its exit
index: any line list agreeing there produces the same state and exit. -/
theorem scanLoopE_congr_exit {p : PaymentType} {startIdx : Nat} {lines lines' : List String} :
    ∀ (fuel i : Nat) (st : ScanState) {st' : ScanState} {e : Nat},
      scanLoopE p lines startIdx fuel i st = .ok (st', e) →
      (∀ j, i ≤ j → j < e → lines.getD j "" = lines'.getD j "") →
      scanLoopE p lines' startIdx fuel i st = .ok (st', e) := by
  intro fuel
  induction fuel with
  | zero => intro i st st' e h _; exact h
  | succ fuel ih =>
    intro i st st' e h hag
    rcases hs : stepLine p i (lines.getD i "") st with u | st1
    · rw [scanLoopE_succ_err hs] at h
      exact absurd h (by simp)
    · rw [scanLoopE_succ_ok hs] at h
      have hie : i < e := by
        by_cases hb : breakCond startIdx i (lines.getD i "") st1 = true
        · rw [if_pos hb] at h
          simp only [Except.ok.injEq, Prod.mk.injEq] at h
          omega
        · rw [if_neg hb] at h
          have := (scanLoopE_bounds h).1
          omega
      have hline : lines'.getD i "" = lines.getD i "" := (hag i le_rfl hie).symm
      have hs' : stepLine p i (lines'.getD i "") st = .ok st1 := by rw [hline]; exact hs
      rw [scanLoopE_succ_ok hs', hline]
      by_cases hb : breakCond startIdx i (lines.getD i "") st1 = true
      · rw [if_pos hb]
        rw [if_pos hb] at h
        exact h
      · rw [if_neg hb]
        rw [if_neg hb] at h
        exact ih (i + 1) st1 h (fun j hj1 hj2 => hag j (by omega) hj2)

/-- The timestamp captured from the banner line is never the empty string
(the pattern requires at least `\w{3}`). -/
theorem matchTimestamp_ne_empty {l : List Char} {t : String}
    (h : matchTimestamp l = some t) : t ≠ "" := by
  unfold matchTimestamp at h
  rcases h1 : takeCount isWordChar 3 l with _ | ⟨w, l1⟩ <;> rw [h1] at h
  · simp at h
  simp only [Option.bind_eq_bind', Option.some_bind] at h
  rcases h2 : takeSome pyIsSpace l1 with _ | ⟨s1, l2⟩ <;> rw [h2] at h
  · simp at h
  simp only [Option.bind_eq_bind', Option.some_bind] at h
  rcases h3 : takeDigits12 l2 with _ | ⟨day, l3⟩ <;> rw [h3] at h
  · simp at h
  simp only [Option.bind_eq_bind', Option.some_bind] at h
  rcases h4 : takeSome pyIsSpace l3 with _ | ⟨s2, l4⟩ <;> rw [h4] at h
  · simp at h
  simp only [Option.bind_eq_bind', Option.some_bind] at h
  rcases h5 : takeCount Char.isDigit 2 l4 with _ | ⟨hh, l5⟩ <;> rw [h5] at h
  · simp at h
  simp only [Option.bind_eq_bind', Option.some_bind] at h
  rcases h6 : expectChar ':' l5 with _ | l6 <;> rw [h6] at h
  · simp at h
  simp only [Option.bind_eq_bind', Option.some_bind] at h
  rcases h7 : takeCount Char.isDigit 2 l6 with _ | ⟨mm, l7⟩ <;> rw [h7] at h
  · simp at h
  simp only [Option.bind_eq_bind', Option.some_bind] at h
  rcases h8 : expectChar ':' l7 with _ | l8 <;> rw [h8] at h
  · simp at h
  simp only [Option.bind_eq_bind', Option.some_bind] at h
  rcases h9 : takeCount Char.isDigit 2 l8 with _ | ⟨ss, l9⟩ <;> rw [h9] at h
  · simp at h
  simp only [Option.bind_eq_bind', Option.some_bind, Option.pure_def,
    Option.some.injEq] at h
  intro hcon
  rw [hcon] at h
  have h2 := congrArg String.data h
  simp at h2

/-! ## The closed-form stopping index of the window scan -/

/-- Whether a line would capture the elapsed duration: the guard of source
line 114 together with a successful regex search (line 115). -/
def elapsedHit (line : String) : Bool :=
  strContains line.data "Elapsed time:" && (elapsedSearch line.data).isSome

/-- Whether a line contains the banner divider (source line 161). -/
def bannerHit (line : String) : Bool :=
  strContains line.data bannerStr

/-- Index of the first line in `[lo, lo + n)` satisfying `P`. -/
def firstHitN (P : String → Bool) (lines : List String) : Nat → Nat → Option Nat
  | _, 0 => none
  | lo, n + 1 =>
    if P (lines.getD lo "") then some lo else firstHitN P lines (lo + 1) n

/-- The index of the last line the window scan processes, in closed form:
the window end `maxLines - 1`, cut short at the first banner line more than
two lines past the start, cut short at six lines past the first
elapsed-time line — whichever comes first. -/
def stopSpec (lines : List String) (startIdx : Nat) : Nat :=
  let maxL := maxLinesOf lines startIdx
  let base :=
    match firstHitN bannerHit lines (startIdx + 3) (maxL - (startIdx + 3)) with
    | some b => min b (maxL - 1)
    | none => maxL - 1
  match firstHitN elapsedHit lines startIdx (maxL - startIdx) with
  | some d => min (d + 6) base
  | none => base

theorem firstHitN_bounds {P : String → Bool} {lines : List String} :
    ∀ {n lo j : Nat}, firstHitN P lines lo n = some j → lo ≤ j ∧ j < lo + n := by
  intro n
  induction n with
  | zero => intro lo j h; simp [firstHitN] at h
  | succ n ih =>
    intro lo j h
    simp only [firstHitN] at h
    split at h
    · simp only [Option.some.injEq] at h; omega
    · have := ih h; omega

theorem firstHitN_hit {P : String → Bool} {lines : List String} :
    ∀ {n lo j : Nat}, firstHitN P lines lo n = some j → P (lines.getD j "") = true := by
  intro n
  induction n with
  | zero => intro lo j h; simp [firstHitN] at h
  | succ n ih =>
    intro lo j h
    simp only [firstHitN] at h
    split at h
    · next hp => simp only [Option.some.injEq] at h; rw [← h]; exact hp
    · exact ih h

theorem firstHitN_mono {P : String → Bool} {lines : List String} :
    ∀ {n n' lo j : Nat}, firstHitN P lines lo n = some j → n ≤ n' →
      firstHitN P lines lo n' = some j := by
  intro n
  induction n with
  | zero => intro n' lo j h; simp [firstHitN] at h
  | succ n ih =>
    intro n' lo j h hle
    rcases n' with _ | n''
    · omega
    simp only [firstHitN] at h ⊢
    split at h
    · next hp => rw [if_pos hp]; exact h
    · next hp => rw [if_neg hp]; exact ih h (by omega)

theorem firstHitN_restrict {P : String → Bool} {lines : List String} :
    ∀ {n n' lo j : Nat}, firstHitN P lines lo n' = some j → j < lo + n → n ≤ n' →
      firstHitN P lines lo n = some j := by
  intro n
  induction n with
  | zero =>
    intro n' lo j h hj _
    exact absurd (firstHitN_bounds h).1 (by omega)
  | succ n ih =>
    intro n' lo j h hj hle
    rcases n' with _ | n''
    · simp [firstHitN] at h
    simp only [firstHitN] at h ⊢
    split at h
    · next hp => rw [if_pos hp]; exact h
    · next hp => rw [if_neg hp]; exact ih h (by omega) (by omega)

theorem firstHitN_le_of_hit {P : String → Bool} {lines : List String} :
    ∀ {n lo j : Nat}, lo ≤ j → j < lo + n → P (lines.getD j "") = true →
      ∃ b, firstHitN P lines lo n = some b ∧ b ≤ j := by
  intro n
  induction n with
  | zero => intro lo j h1 h2 _; omega
  | succ n ih =>
    intro lo j h1 h2 hp
    simp only [firstHitN]
    by_cases hlo : P (lines.getD lo "") = true
    · exact ⟨lo, by rw [if_pos hlo], h1⟩
    · rw [if_neg hlo]
      have hne : lo ≠ j := by
        intro hc; rw [hc] at hlo; exact hlo hp
      rcases @ih (lo + 1) j (by omega) (by omega) hp with ⟨b, hb1, hb2⟩
      exact ⟨b, hb1, hb2⟩

/-- The closed-form stop index never exceeds the last window index. -/
theorem stopSpec_le {lines : List String} {startIdx : Nat} :
    stopSpec lines startIdx ≤ maxLinesOf lines startIdx - 1 := by
  simp only [stopSpec]
  rcases hD : firstHitN elapsedHit lines startIdx
      (maxLinesOf lines startIdx - startIdx) with _ | d <;>
    rcases hB : firstHitN bannerHit lines (startIdx + 3)
      (maxLinesOf lines startIdx - (startIdx + 3)) with _ | b
  · exact le_rfl
  · exact min_le_right _ _
  · exact min_le_right _ _
  · exact le_trans (min_le_right _ _) (min_le_right _ _)

/-- With a real start line the closed-form stop index is at least the
start index. -/
theorem stopSpec_ge {lines : List String} {startIdx : Nat}
    (hlen : startIdx < lines.length) : startIdx ≤ stopSpec lines startIdx := by
  have hML : startIdx + 1 ≤ maxLinesOf lines startIdx := by
    unfold maxLinesOf; omega
  simp only [stopSpec]
  rcases hD : firstHitN elapsedHit lines startIdx
      (maxLinesOf lines startIdx - startIdx) with _ | d <;>
    rcases hB : firstHitN bannerHit lines (startIdx + 3)
      (maxLinesOf lines startIdx - (startIdx + 3)) with _ | b
  · show startIdx ≤ maxLinesOf lines startIdx - 1
    omega
  · have hb := firstHitN_bounds hB
    refine le_min ?_ ?_
    · omega
    · show startIdx ≤ maxLinesOf lines startIdx - 1
      omega
  · have hd := firstHitN_bounds hD
    refine le_min ?_ ?_
    · omega
    · show startIdx ≤ maxLinesOf lines startIdx - 1
      omega
  · have hd := firstHitN_bounds hD
    have hb := firstHitN_bounds hB
    refine le_min ?_ (le_min ?_ ?_)
    · omega
    · omega
    · show startIdx ≤ maxLinesOf lines startIdx - 1
      omega

/-- Every value of the closed-form stop index is realised by one of its
three candidates. -/
theorem stopSpec_cases (lines : List String) (startIdx : Nat) :
    stopSpec lines startIdx = maxLinesOf lines startIdx - 1 ∨
    (∃ d, firstHitN elapsedHit lines startIdx
        (maxLinesOf lines startIdx - startIdx) = some d ∧
      stopSpec lines startIdx = d + 6) ∨
    (∃ b, firstHitN bannerHit lines (startIdx + 3)
        (maxLinesOf lines startIdx - (startIdx + 3)) = some b ∧
      stopSpec lines startIdx = b) := by
  simp only [stopSpec]
  rcases hD : firstHitN elapsedHit lines startIdx
      (maxLinesOf lines startIdx - startIdx) with _ | d <;>
    rcases hB : firstHitN bannerHit lines (startIdx + 3)
      (maxLinesOf lines startIdx - (startIdx + 3)) with _ | b
  · left; rfl
  · have hb := firstHitN_bounds hB
    rcases Nat.le_total b (maxLinesOf lines startIdx - 1) with hle | hle
    · right; right; exact ⟨b, rfl, min_eq_left hle⟩
    · left; exact min_eq_right hle
  · rcases Nat.le_total (d + 6) (maxLinesOf lines startIdx - 1) with hle | hle
    · right; left; exact ⟨d, rfl, min_eq_left hle⟩
    · left; exact min_eq_right hle
  · rcases Nat.le_total (d + 6) (min b (maxLinesOf lines startIdx - 1)) with hle | hle
    · right; left; exact ⟨d, rfl, min_eq_left hle⟩
    · rcases Nat.le_total b (maxLinesOf lines startIdx - 1) with hle2 | hle2
      · right; right
        refine ⟨b, rfl, ?_⟩
        show min (d + 6) (min b (maxLinesOf lines startIdx - 1)) = b
        rw [min_eq_right hle, min_eq_left hle2]
      · left
        show min (d + 6) (min b (maxLinesOf lines startIdx - 1)) =
          maxLinesOf lines startIdx - 1
        rw [min_eq_right hle, min_eq_right hle2]

theorem firstHitN_succ (P : String → Bool) (lines : List String) :
    ∀ (n lo : Nat), firstHitN P lines lo (n + 1) =
      (match firstHitN P lines lo n with
       | some j => some j
       | none => if P (lines.getD (lo + n) "") = true then some (lo + n) else none) := by
  intro n
  induction n with
  | zero =>
    intro lo
    simp only [firstHitN, Nat.add_zero]
  | succ n ih =>
    intro lo
    by_cases hp : P (lines.getD lo "") = true
    · rw [show firstHitN P lines lo (n + 1 + 1) =
          if P (lines.getD lo "") = true then some lo
          else firstHitN P lines (lo + 1) (n + 1) from rfl, if_pos hp]
      rw [show firstHitN P lines lo (n + 1) =
          if P (lines.getD lo "") = true then some lo
          else firstHitN P lines (lo + 1) n from rfl, if_pos hp]
    · rw [show firstHitN P lines lo (n + 1 + 1) =
          if P (lines.getD lo "") = true then some lo
          else firstHitN P lines (lo + 1) (n + 1) from rfl, if_neg hp, ih (lo + 1)]
      rw [show firstHitN P lines lo (n + 1) =
          if P (lines.getD lo "") = true then some lo
          else firstHitN P lines (lo + 1) n from rfl, if_neg hp]
      have h2 : lo + 1 + n = lo + (n + 1) := by omega
      rw [h2]

/-- In the non-raising case, one `stepLine` maintains the invariant relating
`duration_seconds` and `duration_found_at`, and extends `duration_found_at`
by exactly an `elapsedHit` test of the current line. -/
theorem stepLine_duration_inv {p : PaymentType} {i : Nat} {line : String}
    {st st' : ScanState} (h : stepLine p i line st = .ok st')
    (hds : st.duration_seconds.isSome = st.duration_found_at.isSome) :
    st'.duration_seconds.isSome = st'.duration_found_at.isSome ∧
    st'.duration_found_at =
      (match st.duration_found_at with
       | some d => some d
       | none => if elapsedHit line = true then some i else none) := by
  obtain ⟨-, -, -, -, -, -, -, -, d, hd, hd1, hd2⟩ := stepLine_ok_fields h
  rcases hdfa : st.duration_found_at with _ | d0
  · have hdsn : st.duration_seconds = none := by
      rcases hv : st.duration_seconds with _ | v
      · rfl
      · exfalso
        rw [hv, hdfa] at hds
        simp at hds
    rw [hdsn, hdfa] at hd
    by_cases hc : strContains line.data "Elapsed time:" = true
    · rcases hsearch : elapsedSearch line.data with _ | tok
      · have hval : newDuration i line.data none none = Except.ok (none, none) := by
          simp [newDuration, hc, hsearch]
        rw [hval] at hd
        simp only [Except.ok.injEq] at hd
        subst hd
        have he : elapsedHit line = false := by simp [elapsedHit, hsearch]
        refine ⟨by simp [hd1, hd2], by simp [hd2, he]⟩
      · have hval : newDuration i line.data none none =
            (if pyFloatTokenOk tok = true then Except.ok (some tok, some i)
             else Except.error ()) := by
          simp [newDuration, hc, hsearch]
        rw [hval] at hd
        split at hd
        · simp only [Except.ok.injEq] at hd
          subst hd
          have he : elapsedHit line = true := by simp [elapsedHit, hsearch, hc]
          refine ⟨by simp [hd1, hd2], by simp [hd2, he]⟩
        · exact absurd hd (by simp)
    · have hc' : strContains line.data "Elapsed time:" = false := by
        revert hc
        cases strContains line.data "Elapsed time:" <;> simp
      have hval : newDuration i line.data none none =
          Except.ok ((none : Option String), (none : Option Nat)) := by
        simp [newDuration, hc']
      rw [hval] at hd
      simp only [Except.ok.injEq] at hd
      subst hd
      have he : elapsedHit line = false := by simp [elapsedHit, hc']
      refine ⟨by simp [hd1, hd2], by simp [hd2, he]⟩
  · have hdss : st.duration_seconds.isSome = true := by rw [hds, hdfa]; rfl
    rcases hv : st.duration_seconds with _ | v
    · rw [hv] at hdss; simp at hdss
    · rw [hv, hdfa] at hd
      have hval : newDuration i line.data (some v) (some d0) =
          Except.ok (some v, some d0) := by
        simp [newDuration]
      rw [hval] at hd
      simp only [Except.ok.injEq] at hd
      subst hd
      refine ⟨by simp [hd1, hd2], by simp [hd2]⟩

theorem stopSpec_le_of_banner {lines : List String} {startIdx b : Nat}
    (hB : firstHitN bannerHit lines (startIdx + 3)
      (maxLinesOf lines startIdx - (startIdx + 3)) = some b) :
    stopSpec lines startIdx ≤ b := by
  simp only [stopSpec]
  rw [hB]
  rcases hD : firstHitN elapsedHit lines startIdx
      (maxLinesOf lines startIdx - startIdx) with _ | d
  · exact min_le_left _ _
  · exact le_trans (min_le_right _ _) (min_le_left _ _)

theorem stopSpec_le_of_elapsed {lines : List String} {startIdx d : Nat}
    (hD : firstHitN elapsedHit lines startIdx
      (maxLinesOf lines startIdx - startIdx) = some d) :
    stopSpec lines startIdx ≤ d + 6 := by
  simp only [stopSpec]
  rw [hD]
  rcases hB : firstHitN bannerHit lines (startIdx + 3)
      (maxLinesOf lines startIdx - (startIdx + 3)) with _ | b
  · exact min_le_left _ _
  · exact min_le_left _ _

/-- Provided the scan does not raise, its exit index is exactly one past the
closed-form stop index `stopSpec`. -/
theorem scanLoopE_exit_eq {p : PaymentType} {lines : List String} {startIdx : Nat}
    (hlen : startIdx < lines.length) :
    ∀ (fuel i : Nat) (st : ScanState) {st' : ScanState} {e : Nat},
      fuel = maxLinesOf lines startIdx - i →
      startIdx ≤ i →
      i ≤ stopSpec lines startIdx →
      st.duration_seconds.isSome = st.duration_found_at.isSome →
      st.duration_found_at = firstHitN elapsedHit lines startIdx (i - startIdx) →
      scanLoopE p lines startIdx fuel i st = .ok (st', e) →
      e = stopSpec lines startIdx + 1 := by
  have hML : startIdx + 1 ≤ maxLinesOf lines startIdx := by unfold maxLinesOf; omega
  intro fuel
  induction fuel with
  | zero =>
    intro i st st' e hfuel hsi hiS hds hdfa h
    exfalso
    have hle := @stopSpec_le lines startIdx
    omega
  | succ fuel ih =>
    intro i st st' e hfuel hsi hiS hds hdfa h
    have hiM : i < maxLinesOf lines startIdx := by omega
    rcases hs : stepLine p i (lines.getD i "") st with u | st1
    · rw [scanLoopE_succ_err hs] at h
      exact absurd h (by simp)
    · rw [scanLoopE_succ_ok hs] at h
      obtain ⟨hds1, hdfa1raw⟩ := stepLine_duration_inv hs hds
      have hdfa1 : st1.duration_found_at =
          firstHitN elapsedHit lines startIdx (i + 1 - startIdx) := by
        rw [hdfa1raw, hdfa]
        rw [show i + 1 - startIdx = (i - startIdx) + 1 from by omega,
          firstHitN_succ]
        rw [show startIdx + (i - startIdx) = i from by omega]
      by_cases hb : breakCond startIdx i (lines.getD i "") st1 = true
      · rw [if_pos hb] at h
        simp only [Except.ok.injEq, Prod.mk.injEq] at h
        obtain ⟨-, he⟩ := h
        have hstop : stopSpec lines startIdx = i := by
          rcases hdv : st1.duration_found_at with _ | dd
          · simp only [breakCond, hdv, Bool.or_eq_true, Bool.and_eq_true,
              decide_eq_true_eq] at hb
            rcases hb with hfalse | ⟨hgt, hban⟩
            · exact absurd hfalse (by simp)
            · obtain ⟨b, hbB, hble⟩ :=
                @firstHitN_le_of_hit bannerHit lines
                  (maxLinesOf lines startIdx - (startIdx + 3)) (startIdx + 3) i
                  (by omega) (by omega) hban
              have := stopSpec_le_of_banner hbB
              omega
          · simp only [breakCond, hdv, Bool.or_eq_true, Bool.and_eq_true,
              decide_eq_true_eq] at hb
            rcases hb with hdur | ⟨hgt, hban⟩
            · have hD : firstHitN elapsedHit lines startIdx
                  (maxLinesOf lines startIdx - startIdx) = some dd := by
                apply firstHitN_mono (n := i + 1 - startIdx)
                · rw [← hdfa1, hdv]
                · omega
              have := stopSpec_le_of_elapsed hD
              omega
            · obtain ⟨b, hbB, hble⟩ :=
                @firstHitN_le_of_hit bannerHit lines
                  (maxLinesOf lines startIdx - (startIdx + 3)) (startIdx + 3) i
                  (by omega) (by omega) hban
              have := stopSpec_le_of_banner hbB
              omega
        omega
      · rw [if_neg hb] at h
        by_cases hiS2 : i < stopSpec lines startIdx
        · exact ih (i + 1) st1 (by omega) (by omega) (by omega) hds1 hdfa1 h
        · have hieq : i = stopSpec lines startIdx := by omega
          have hiM1 : i = maxLinesOf lines startIdx - 1 := by
            rcases stopSpec_cases lines startIdx with hc1 | ⟨d, hD, hc2⟩ | ⟨b, hB, hc3⟩
            · omega
            · exfalso
              have hdbd := firstHitN_bounds hD
              have hdd : firstHitN elapsedHit lines startIdx
                  (i + 1 - startIdx) = some d :=
                firstHitN_restrict hD (by omega) (by omega)
              have hdv : st1.duration_found_at = some d := by rw [hdfa1, hdd]
              apply hb
              simp only [breakCond, hdv, Bool.or_eq_true, decide_eq_true_eq]
              left
              omega
            · exfalso
              have hbbd := firstHitN_bounds hB
              have hbi : b = i := by omega
              have hbH := firstHitN_hit hB
              apply hb
              simp only [breakCond, Bool.or_eq_true, Bool.and_eq_true,
                decide_eq_true_eq]
              right
              refine ⟨by omega, ?_⟩
              rw [← hbi]
              exact hbH
          have hfuel0 : fuel = 0 := by omega
          subst hfuel0
          simp only [scanLoopE, Except.ok.injEq, Prod.mk.injEq] at h
          omega

theorem scanLoopE_succ_exit_ge {p : PaymentType} {lines : List String}
    {startIdx fuel i : Nat} {st st' : ScanState} {e : Nat}
    (h : scanLoopE p lines startIdx (fuel + 1) i st = .ok (st', e)) : i + 1 ≤ e := by
  rcases hs : stepLine p i (lines.getD i "") st with u | st1
  · rw [scanLoopE_succ_err hs] at h
    exact absurd h (by simp)
  · rw [scanLoopE_succ_ok hs] at h
    split at h
    · simp only [Except.ok.injEq, Prod.mk.injEq] at h
      omega
    · have := (scanLoopE_bounds h).1
      omega

/-- The window scan reads no line outside `[startIdx, maxLines)`:
any equally long line list agreeing there parses identically. -/
theorem parse_upload_attempt_window_local (lines lines' : List String) (startIdx : Nat)
    (p : PaymentType) (hlen : lines.length = lines'.length)
    (hag : ∀ j, j < maxLinesOf lines startIdx → startIdx ≤ j →
      lines.getD j "" = lines'.getD j "") :
    parse_upload_attempt lines startIdx p = parse_upload_attempt lines' startIdx p := by
  have hmL : maxLinesOf lines' startIdx = maxLinesOf lines startIdx := by
    unfold maxLinesOf; rw [hlen]
  have hstart : lines.getD startIdx "" = lines'.getD startIdx "" := by
    by_cases hx : startIdx < maxLinesOf lines startIdx
    · exact hag startIdx hx le_rfl
    · have h1 : lines.length ≤ startIdx := by
        unfold maxLinesOf at hx; omega
      rw [List.getD_eq_default lines _ h1, List.getD_eq_default lines' _ (by omega)]
  have hinit : initState lines' startIdx = initState lines startIdx := by
    unfold initState; rw [hstart]
  have hloop := @scanLoopE_congr_lines p startIdx lines lines'
      (maxLinesOf lines startIdx - startIdx) startIdx (initState lines startIdx)
      (fun j hj1 hj2 => hag j (by omega) hj1)
  unfold parse_upload_attempt scanWindow scanWindowE
  rw [hmL, hinit, ← hloop]

/-- A non-raising window scan reads no line past its last processed line:
any equally long line list agreeing up to the exit index parses
identically. -/
theorem parse_upload_attempt_stop_local (lines lines' : List String) (startIdx : Nat)
    (p : PaymentType) {st : ScanState} {e : Nat}
    (hlen : lines.length = lines'.length)
    (hE : scanWindowE lines startIdx p = .ok (st, e))
    (hag : ∀ j, j < e → startIdx ≤ j → lines.getD j "" = lines'.getD j "") :
    parse_upload_attempt lines' startIdx p = parse_upload_attempt lines startIdx p := by
  have hmL : maxLinesOf lines' startIdx = maxLinesOf lines startIdx := by
    unfold maxLinesOf; rw [hlen]
  unfold scanWindowE at hE
  have hbd := scanLoopE_bounds hE
  have hstart : lines.getD startIdx "" = lines'.getD startIdx "" := by
    by_cases hx : startIdx < e
    · exact hag startIdx hx le_rfl
    · rcases hfuel : maxLinesOf lines startIdx - startIdx with _ | f
      · have h1 : lines.length ≤ startIdx := by
          unfold maxLinesOf at hfuel; omega
        rw [List.getD_eq_default lines _ h1, List.getD_eq_default lines' _ (by omega)]
      · rw [hfuel] at hE
        have := scanLoopE_succ_exit_ge hE
        omega
  have hinit : initState lines' startIdx = initState lines startIdx := by
    unfold initState; rw [hstart]
  have hE' := @scanLoopE_congr_exit p startIdx lines lines'
      (maxLinesOf lines startIdx - startIdx) startIdx (initState lines startIdx)
      st e hE (fun j hj1 hj2 => hag j hj2 hj1)
  unfold parse_upload_attempt scanWindow scanWindowE
  rw [hmL, hinit, hE', hE]

/-- A non-raising window scan exits exactly one line past `stopSpec`. -/
theorem scanWindowE_exit {lines : List String} {startIdx : Nat} {p : PaymentType}
    {st : ScanState} {e : Nat} (hlen : startIdx < lines.length)
    (hE : scanWindowE lines startIdx p = .ok (st, e)) :
    e = stopSpec lines startIdx + 1 := by
  unfold scanWindowE at hE
  refine scanLoopE_exit_eq hlen _ startIdx (initState lines startIdx) rfl le_rfl
    (stopSpec_ge hlen) rfl ?_ hE
  rw [Nat.sub_self]
  rfl

/-- The final state's `start_time` is exactly the banner-line timestamp. -/
theorem scanWindow_start_time {lines : List String} {startIdx : Nat} {p : PaymentType}
    {st : ScanState} (h : scanWindow lines startIdx p = .ok st) :
    st.start_time = matchTimestamp (lines.getD startIdx "").data := by
  unfold scanWindow at h
  split at h
  · exact absurd h (by simp)
  · rename_i pr hE
    simp only [Except.ok.injEq] at h
    subst h
    rcases pr with ⟨st2, e⟩
    unfold scanWindowE at hE
    exact scanLoopE_start_time hE

/-- Everything the assembler guarantees about an emitted record. -/
theorem assembleAttempt_eq_some {st : ScanState} {r : UploadAttempt}
    (h : assembleAttempt st = some r) :
    st.file_name = some r.file_name ∧ r.file_name ≠ "" ∧
    st.size_kb = some r.size_kb ∧
    st.duration_seconds = some r.duration_seconds ∧
    st.start_time = some r.start_time ∧ r.start_time ≠ "" ∧
    r.success = st.success ∧ r.address = st.address ∧
    r.total_chunks = st.total_chunks ∧
    r.successful_chunks =
      (match st.total_chunks with
       | some t =>
         some (if st.all_chunks_already_exist then t
               else min st.successful_chunk_addresses.length t)
       | none => none) := by
  unfold assembleAttempt at h
  split at h
  · rename_i hg
    simp only [Option.some.injEq] at h
    subst h
    simp only [Bool.and_eq_true] at hg
    obtain ⟨⟨⟨h1, h2⟩, h3⟩, h4⟩ := hg
    rcases hf : st.file_name with _ | f
    · rw [hf] at h1; simp [pyTruthy] at h1
    rcases hsz : st.size_kb with _ | sz
    · rw [hsz] at h2; simp at h2
    rcases hdur : st.duration_seconds with _ | dur
    · rw [hdur] at h3; simp at h3
    rcases hti : st.start_time with _ | ti
    · rw [hti] at h4; simp [pyTruthy] at h4
    rw [hf] at h1
    rw [hti] at h4
    simp only [pyTruthy, Bool.not_eq_true', decide_eq_false_iff_not] at h1 h4
    exact ⟨by simp [hf], by simpa [hf] using h1, by simp [hsz], by simp [hdur],
      by simp [hti], by simpa [hti] using h4, rfl, rfl, rfl, rfl⟩
  · exact absurd h (by simp)

/-- The assembler emits whenever its four-way guard holds. -/
theorem assembleAttempt_guard {st : ScanState} (h1 : pyTruthy st.file_name = true)
    (h2 : st.size_kb.isSome = true) (h3 : st.duration_seconds.isSome = true)
    (h4 : pyTruthy st.start_time = true) : ∃ r, assembleAttempt st = some r := by
  unfold assembleAttempt
  rw [if_pos (by simp [h1, h2, h3, h4])]
  exact ⟨_, rfl⟩

/-- The assembler emits nothing when its guard fails. -/
theorem assembleAttempt_eq_none {st : ScanState}
    (h : (pyTruthy st.file_name && st.size_kb.isSome && st.duration_seconds.isSome &&
      pyTruthy st.start_time) = false) : assembleAttempt st = none := by
  unfold assembleAttempt
  rw [if_neg (by simp [h])]

/-! ## Claim C1 -/

/-- A window whose `File/Directory:` line has only whitespace after the
label: every required field is captured, but the captured file name is the
empty string. -/
def exC1Bad : List String :=
  [ "Dec 27 10:05:00 =========================================="
  , "Uploading Content"
  , "File/Directory: "
  , "Size: 512KB"
  , "Elapsed time: 12.5 seconds" ]

def exC1BadState : ScanState :=
  { file_name := some ""
    size_kb := some 512
    success := false
    address := none
    duration_seconds := some "12.5"
    duration_found_at := some 4
    start_time := some "Dec 27 10:05:00"
    total_chunks := none
    successful_chunk_addresses := []
    all_chunks_already_exist := false }

/-- A fully well-formed window. -/
def exC1Good : List String :=
  [ "Dec 27 10:06:00 =========================================="
  , "Uploading Content"
  , "File/Directory: /data/report.pdf"
  , "Size: 256KB"
  , "Successfully uploaded /data/report.pdf"
  , "At address: 9f3c2b"
  , "Elapsed time: 42.5 seconds" ]

def exC1GoodState : ScanState :=
  { file_name := some "/data/report.pdf"
    size_kb := some 256
    success := true
    address := some "9f3c2b"
    duration_seconds := some "42.5"
    duration_found_at := some 6
    start_time := some "Dec 27 10:06:00"
    total_chunks := none
    successful_chunk_addresses := []
    all_chunks_already_exist := false }

/-- C1 counterexample: in this window all four required fields are captured
(`file_name` as the empty string), yet `parse_upload_attempt` returns
`None`, because the emission check tests Python truthiness of `file_name`,
not mere presence. -/
theorem C1_counterexample :
    scanWindow exC1Bad 0 PaymentType.singleNode = .ok exC1BadState ∧
    exC1BadState.file_name = some "" ∧ exC1BadState.size_kb = some 512 ∧
    exC1BadState.duration_seconds = some "12.5" ∧
    exC1BadState.start_time = some "Dec 27 10:05:00" ∧
    parse_upload_attempt exC1Bad 0 PaymentType.singleNode = .ok none :=
  ⟨rfl, rfl, rfl, rfl, rfl, rfl⟩

/-- C1 (amended): for every window and either payment mode, a non-raising
scan emits a record iff `file_name`, `size_kb`, `duration_seconds` and
`start_time` were all captured *and* the captured file name is nonempty;
when any of the four is missing nothing is emitted; and an emitted record
carries exactly the captured values, with `address` and `total_chunks`
represented as absent values when they were not captured. -/
theorem C1_emission_iff (lines : List String) (startIdx : Nat) (p : PaymentType)
    (st : ScanState) (h : scanWindow lines startIdx p = .ok st) :
    ((∃ r, parse_upload_attempt lines startIdx p = .ok (some r)) ↔
      ((∃ f, st.file_name = some f ∧ f ≠ "") ∧ st.size_kb.isSome = true ∧
        st.duration_seconds.isSome = true ∧ st.start_time.isSome = true)) ∧
    ((st.file_name = none ∨ st.size_kb = none ∨ st.duration_seconds = none ∨
       st.start_time = none) → parse_upload_attempt lines startIdx p = .ok none) ∧
    (∀ r, parse_upload_attempt lines startIdx p = .ok (some r) →
      st.file_name = some r.file_name ∧ st.size_kb = some r.size_kb ∧
      st.duration_seconds = some r.duration_seconds ∧
      st.start_time = some r.start_time ∧ r.address = st.address ∧
      r.total_chunks = st.total_chunks) := by
  have hparse : parse_upload_attempt lines startIdx p = .ok (assembleAttempt st) := by
    unfold parse_upload_attempt
    rw [h]
  have hstt := scanWindow_start_time h
  have htruthy : pyTruthy st.start_time = st.start_time.isSome := by
    rcases hv : st.start_time with _ | t
    · rfl
    · have hmt : matchTimestamp (lines.getD startIdx "").data = some t := by
        rw [← hstt, hv]
      have hne := matchTimestamp_ne_empty hmt
      simp [pyTruthy, hne]
  refine ⟨?_, ?_, ?_⟩
  · constructor
    · rintro ⟨r, hr⟩
      rw [hparse] at hr
      simp only [Except.ok.injEq] at hr
      obtain ⟨hf, hfne, hsz, hdur, hti, -, -, -, -, -⟩ := assembleAttempt_eq_some hr
      exact ⟨⟨r.file_name, hf, hfne⟩, by simp [hsz], by simp [hdur], by simp [hti]⟩
    · rintro ⟨⟨f, hf, hfne⟩, h2, h3, h4⟩
      obtain ⟨r, hr⟩ := assembleAttempt_guard (by simp [pyTruthy, hf, hfne]) h2 h3
        (by rw [htruthy]; exact h4)
      exact ⟨r, by rw [hparse, hr]⟩
  · intro hmiss
    rw [hparse]
    have hg : (pyTruthy st.file_name && st.size_kb.isSome &&
        st.duration_seconds.isSome && pyTruthy st.start_time) = false := by
      rcases hmiss with hm | hm | hm | hm <;> simp [hm, pyTruthy]
    rw [assembleAttempt_eq_none hg]
  · intro r hr
    rw [hparse] at hr
    simp only [Except.ok.injEq] at hr
    obtain ⟨hf, -, hsz, hdur, hti, -, -, haddr, htot, -⟩ := assembleAttempt_eq_some hr
    exact ⟨hf, hsz, hdur, hti, haddr, htot⟩

/-- C1 witness: the emission criterion applied to a concrete well-formed
window. -/
theorem C1_witness :
    scanWindow exC1Good 0 PaymentType.singleNode = .ok exC1GoodState ∧
    (∃ r, parse_upload_attempt exC1Good 0 PaymentType.singleNode = .ok (some r)) :=
  ⟨rfl, ((C1_emission_iff exC1Good 0 PaymentType.singleNode exC1GoodState rfl).1).mpr
    ⟨⟨"/data/report.pdf", rfl, by decide⟩, rfl, rfl, rfl⟩⟩

/-! ## Claim C2 -/

/-- A window whose accumulated success-address set (2 addresses) exceeds the
declared total (1 chunk). -/
def exC2 : List String :=
  [ "Dec 27 10:07:00 =========================================="
  , "Uploading Content"
  , "File/Directory: c.bin"
  , "Size: 10KB"
  , "Processing estimated total 1 chunks"
  , "(1/2) Chunk stored at: 0123456789abcdef0123456789abcdef0123456789abcdef0123456789abcdef"
  , "(2/2) Chunk stored at: 0123456789abcdef0123456789abcdef0123456789abcdef0123456789abcdee"
  , "Successfully uploaded c.bin"
  , "Elapsed time: 3.5 seconds" ]

def exC2State : ScanState :=
  { file_name := some "c.bin"
    size_kb := some 10
    success := true
    address := none
    duration_seconds := some "3.5"
    duration_found_at := some 8
    start_time := some "Dec 27 10:07:00"
    total_chunks := some 1
    successful_chunk_addresses :=
      [ "0123456789abcdef0123456789abcdef0123456789abcdef0123456789abcdee"
      , "0123456789abcdef0123456789abcdef0123456789abcdef0123456789abcdef" ]
    all_chunks_already_exist := false }

def exC2Attempt : UploadAttempt :=
  { file_name := "c.bin"
    size_kb := 10
    success := true
    address := none
    duration_seconds := "3.5"
    start_time := "Dec 27 10:07:00"
    total_chunks := some 1
    successful_chunks := some 1 }

/-- C2: in every emitted record, a present `successful_chunks` implies a
present `total_chunks` and `successful_chunks ≤ total_chunks`; moreover
whenever the accumulated success-address set is at least as large as the
declared total (and the all-exist flag is off), `successful_chunks` equals
the total exactly — the `min` cap never lets it exceed the total. -/
theorem C2_successful_le_total (lines : List String) (startIdx : Nat) (p : PaymentType)
    (st : ScanState) (r : UploadAttempt)
    (h1 : scanWindow lines startIdx p = .ok st)
    (h2 : assembleAttempt st = some r) :
    parse_upload_attempt lines startIdx p = .ok (some r) ∧
    (r.successful_chunks.isSome = true → r.total_chunks.isSome = true) ∧
    (∀ s t, r.successful_chunks = some s → r.total_chunks = some t → s ≤ t) ∧
    (∀ t, st.total_chunks = some t → st.all_chunks_already_exist = false →
      t ≤ st.successful_chunk_addresses.length → r.successful_chunks = some t) := by
  obtain ⟨-, -, -, -, -, -, -, -, htot, hsucc⟩ := assembleAttempt_eq_some h2
  have hp : parse_upload_attempt lines startIdx p = .ok (assembleAttempt st) := by
    unfold parse_upload_attempt
    rw [h1]
  refine ⟨by rw [hp, h2], ?_, ?_, ?_⟩
  · intro hs
    rcases hv : st.total_chunks with _ | t
    · rw [hv] at hsucc
      simp only at hsucc
      rw [hsucc] at hs
      simp at hs
    · rw [htot, hv]
      rfl
  · intro s t hs ht
    rw [htot] at ht
    rw [ht] at hsucc
    rw [hs] at hsucc
    simp only [Option.some.injEq] at hsucc
    by_cases hae : st.all_chunks_already_exist = true
    · rw [if_pos hae] at hsucc
      omega
    · rw [if_neg hae] at hsucc
      subst hsucc
      exact min_le_right _ _
  · intro t hv hae hle
    rw [hv] at hsucc
    rw [hsucc, hae]
    simp [min_eq_right hle]

/-- C2 witness: the over-full success set (2 addresses, total 1) is capped
to `successful_chunks = 1`. -/
theorem C2_witness :
    scanWindow exC2 0 PaymentType.singleNode = .ok exC2State ∧
    assembleAttempt exC2State = some exC2Attempt ∧
    exC2Attempt.total_chunks = some 1 ∧
    exC2State.successful_chunk_addresses.length = 2 ∧
    exC2Attempt.successful_chunks = some 1 :=
  ⟨rfl, rfl, rfl, rfl,
    (C2_successful_le_total exC2 0 PaymentType.singleNode exC2State exC2Attempt
      rfl rfl).2.2.2 1 rfl rfl (by decide)⟩

/-! ## Claim C4 -/

/-- A merkle window where the `Encrypted 50/50` fallback precedes the
authoritative `Starting upload of 80 chunks` line. -/
def exC4 : List String :=
  [ "Dec 27 10:08:00 =========================================="
  , "Uploading Content"
  , "File/Directory: b.bin"
  , "Size: 100KB"
  , "Encrypted 50/50 chunks in 2.0s"
  , "Starting upload of 80 chunks in 2 Merkle Trees..."
  , "Successfully uploaded b.bin"
  , "Elapsed time: 5.0 seconds" ]

def exC4Attempt : UploadAttempt :=
  { file_name := "b.bin"
    size_kb := 100
    success := true
    address := none
    duration_seconds := "5.0"
    start_time := "Dec 27 10:08:00"
    total_chunks := some 80
    successful_chunks := some 0 }

def exC4PreState : ScanState :=
  { file_name := none
    size_kb := none
    success := false
    address := none
    duration_seconds := none
    duration_found_at := none
    start_time := none
    total_chunks := some 50
    successful_chunk_addresses := []
    all_chunks_already_exist := false }

def exC4PostState : ScanState :=
  { file_name := none
    size_kb := none
    success := false
    address := none
    duration_seconds := none
    duration_found_at := none
    start_time := none
    total_chunks := some 80
    successful_chunk_addresses := []
    all_chunks_already_exist := false }

/-- C4: in merkle mode a line matching the authoritative
`Starting upload of N chunks in M Merkle Tree` pattern sets the total to
`N`, overwriting any prior value; an already-set total survives every other
line; the `Encrypted X/Y` fallback supplies `Y` only when no total is set
(and only in the `elif` where the authoritative guard failed); and the
concrete fallback-50-then-authoritative-80 window yields total 80. -/
theorem C4_merkle_total_overwrite :
    (∀ (i : Nat) (line : String) (st st' : ScanState) (n : Nat),
      stepLine .merkle i line st = .ok st' →
      startingUploadSearch line.data = some n → st'.total_chunks = some n) ∧
    (∀ (i : Nat) (line : String) (st st' : ScanState) (t : Nat),
      stepLine .merkle i line st = .ok st' → st.total_chunks = some t →
      st'.total_chunks = some t ∨
        ∃ n, startingUploadSearch line.data = some n ∧ st'.total_chunks = some n) ∧
    (∀ (i : Nat) (line : String) (st st' : ScanState) (y : Nat),
      stepLine .merkle i line st = .ok st' → st.total_chunks = none →
      (strContains line.data "Starting upload of" &&
        strContains line.data "Merkle Tree") = false →
      strContains line.data "Encrypted" = true →
      strContains line.data "chunks in" = true →
      encryptedSearch line.data = some y → st'.total_chunks = some y) ∧
    (parse_upload_attempt exC4 0 PaymentType.merkle = .ok (some exC4Attempt) ∧
      exC4Attempt.total_chunks = some 80) := by
  refine ⟨?_, ?_, ?_, rfl, rfl⟩
  · intro i line st st' n h hsearch
    obtain ⟨hc1, hc2⟩ := startingUploadSearch_contains hsearch
    have htot := (stepLine_ok_fields h).2.2.2.2.2.1
    rw [htot]
    simp [newTotal, hc1, hc2, hsearch]
  · intro i line st st' t h hv
    have htot := (stepLine_ok_fields h).2.2.2.2.2.1
    rw [htot, hv]
    by_cases hg : (strContains line.data "Starting upload of" &&
        strContains line.data "Merkle Tree") = true
    · rcases hsearch : startingUploadSearch line.data with _ | n
      · left
        simp [newTotal, hg, hsearch]
      · right
        exact ⟨n, rfl, by simp [newTotal, hg, hsearch]⟩
    · left
      have hg' : (strContains line.data "Starting upload of" &&
          strContains line.data "Merkle Tree") = false := by
        revert hg
        cases strContains line.data "Starting upload of" &&
          strContains line.data "Merkle Tree" <;> simp
      simp [newTotal, hg']
  · intro i line st st' y h hv hg hc1 hc2 hsearch
    have htot := (stepLine_ok_fields h).2.2.2.2.2.1
    rw [htot, hv]
    simp [newTotal, hg, hc1, hc2, hsearch]

/-- C4 witness: the authoritative line overwrites a previously set total of
50 with 80. -/
theorem C4_witness :
    exC4PreState.total_chunks = some 50 ∧
    stepLine PaymentType.merkle 3 "Starting upload of 80 chunks in 2 Merkle Trees..."
      exC4PreState = .ok exC4PostState ∧
    exC4PostState.total_chunks = some 80 :=
  ⟨rfl, rfl, C4_merkle_total_overwrite.1 3
    "Starting upload of 80 chunks in 2 Merkle Trees..." exC4PreState exC4PostState
    80 rfl rfl⟩

/-! ## Claim C5 -/

/-- A window with a success line followed by a failure line naming the same
file. -/
def exC5 : List String :=
  [ "Dec 27 10:09:00 =========================================="
  , "Uploading Content"
  , "File/Directory: a.txt"
  , "Size: 64KB"
  , "Successfully uploaded a.txt"
  , "Failed to upload a.txt after retries"
  , "Elapsed time: 2.5 seconds" ]

def exC5Attempt : UploadAttempt :=
  { file_name := "a.txt"
    size_kb := 64
    success := false
    address := none
    duration_seconds := "2.5"
    start_time := "Dec 27 10:09:00"
    total_chunks := none
    successful_chunks := none }

/-- C5: a line containing the success phrase and not the failure token sets
`success` to true; a line containing the failed-upload phrase and the
previously captured nonempty file name sets `success` to false regardless
of its prior value; and the concrete success-then-failure window for
`a.txt` emits a record with `success = false`. -/
theorem C5_failure_override :
    (∀ (p : PaymentType) (i : Nat) (line : String) (st st' : ScanState),
      stepLine p i line st = .ok st' →
      strContains line.data "Successfully uploaded" = true →
      strContains line.data "Failed" = false →
      st'.success = true) ∧
    (∀ (p : PaymentType) (i : Nat) (line : String) (st st' : ScanState) (f : String),
      stepLine p i line st = .ok st' →
      st.file_name = some f → f ≠ "" →
      strContains line.data "Failed to upload" = true →
      strContains line.data f = true →
      st'.success = false) ∧
    (parse_upload_attempt exC5 0 PaymentType.singleNode = .ok (some exC5Attempt) ∧
      exC5Attempt.success = false) := by
  refine ⟨?_, ?_, rfl, rfl⟩
  · intro p i line st st' h hc1 hc2
    have hfu : strContains line.data "Failed to upload" = false := by
      rcases hx : strContains line.data "Failed to upload" with _ | _
      · rfl
      · exact absurd (strContains_failed_of_failed_to_upload hx) (by rw [hc2]; simp)
    have hsuc := (stepLine_ok_fields h).2.2.1
    rw [hsuc]
    simp [newSuccess, hc1, hc2, hfu]
  · intro p i line st st' f h hf hfne hc hcf
    have hsuc := (stepLine_ok_fields h).2.2.1
    rw [hsuc]
    have hfn : newFileName line.data st.file_name = some f := by
      rw [hf]
      simp [newFileName]
    rw [hfn]
    simp [newSuccess, hc, hcf, pyTruthy, hfne]

def exC5PreState : ScanState :=
  { file_name := some "a.txt"
    size_kb := some 64
    success := true
    address := none
    duration_seconds := none
    duration_found_at := none
    start_time := some "Dec 27 10:09:00"
    total_chunks := none
    successful_chunk_addresses := []
    all_chunks_already_exist := false }

def exC5PostState : ScanState :=
  { file_name := some "a.txt"
    size_kb := some 64
    success := false
    address := none
    duration_seconds := none
    duration_found_at := none
    start_time := some "Dec 27 10:09:00"
    total_chunks := none
    successful_chunk_addresses := []
    all_chunks_already_exist := false }

/-- C5 witness: the failure override applied to a concrete step flips
`success` from true to false. -/
theorem C5_witness :
    stepLine PaymentType.singleNode 5 "Failed to upload a.txt after retries"
        exC5PreState = .ok exC5PostState ∧
    exC5PostState.success = false :=
  ⟨rfl, C5_failure_override.2.1 PaymentType.singleNode 5
    "Failed to upload a.txt after retries" exC5PreState exC5PostState
    "a.txt" rfl rfl (by decide) rfl rfl⟩

/-! ## Claim C6 -/

/-- A single-node window where the estimated-total line appears twice with
different numbers. -/
def exC6 : List String :=
  [ "Dec 27 10:10:00 =========================================="
  , "Uploading Content"
  , "File/Directory: d.bin"
  , "Size: 42KB"
  , "Processing estimated total 30 chunks"
  , "Processing estimated total 50 chunks"
  , "Successfully uploaded d.bin"
  , "Elapsed time: 7.5 seconds" ]

def exC6Attempt : UploadAttempt :=
  { file_name := "d.bin"
    size_kb := 42
    success := true
    address := none
    duration_seconds := "7.5"
    start_time := "Dec 27 10:10:00"
    total_chunks := some 30
    successful_chunks := some 0 }

/-- C6: in single-node mode an already-set total is never changed, the
first matching `Processing estimated total N chunks` line sets it, and the
concrete 30-then-50 window retains 30. -/
theorem C6_single_node_no_overwrite :
    (∀ (i : Nat) (line : String) (st st' : ScanState) (t : Nat),
      stepLine .singleNode i line st = .ok st' →
      st.total_chunks = some t → st'.total_chunks = some t) ∧
    (∀ (i : Nat) (line : String) (st st' : ScanState) (n : Nat),
      stepLine .singleNode i line st = .ok st' → st.total_chunks = none →
      processingSearch line.data = some n → st'.total_chunks = some n) ∧
    (parse_upload_attempt exC6 0 PaymentType.singleNode = .ok (some exC6Attempt) ∧
      exC6Attempt.total_chunks = some 30) := by
  refine ⟨?_, ?_, rfl, rfl⟩
  · intro i line st st' t h hv
    have htot := (stepLine_ok_fields h).2.2.2.2.2.1
    rw [htot, hv]
    simp [newTotal]
  · intro i line st st' n h hv hsearch
    have hc := processingSearch_contains hsearch
    have htot := (stepLine_ok_fields h).2.2.2.2.2.1
    rw [htot, hv]
    simp [newTotal, hc, hsearch]

/-- C6 witness: a second estimated-total line does not change the value. -/
theorem C6_witness :
    stepLine PaymentType.singleNode 5 "Processing estimated total 50 chunks"
        exC4PostState = .ok exC4PostState ∧
    exC4PostState.total_chunks = some 80 :=
  ⟨rfl, C6_single_node_no_overwrite.1 5 "Processing estimated total 50 chunks"
    exC4PostState exC4PostState 80 rfl rfl⟩

/-! ## Claim C7 -/

/-- A merkle window with the all-chunks-already-exist marker, a stated
total of 7, and zero per-chunk success lines. -/
def exC7 : List String :=
  [ "Dec 27 10:11:00 =========================================="
  , "Uploading Content"
  , "File/Directory: e.bin"
  , "Size: 70KB"
  , "Encrypted 7/7 chunks in 1.2s"
  , "All 7 chunks already exist on the network, nothing to upload"
  , "Successfully uploaded e.bin"
  , "Elapsed time: 0.9 seconds" ]

def exC7State : ScanState :=
  { file_name := some "e.bin"
    size_kb := some 70
    success := true
    address := none
    duration_seconds := some "0.9"
    duration_found_at := some 7
    start_time := some "Dec 27 10:11:00"
    total_chunks := some 7
    successful_chunk_addresses := []
    all_chunks_already_exist := true }

def exC7Attempt : UploadAttempt :=
  { file_name := "e.bin"
    size_kb := 70
    success := true
    address := none
    duration_seconds := "0.9"
    start_time := "Dec 27 10:11:00"
    total_chunks := some 7
    successful_chunks := some 7 }

/-- C7: when the all-chunks-already-exist flag is set and a total `n` was
captured, the emitted record has `successful_chunks = n`; the concrete
window with total 7, the marker, and an empty success-address set emits
`successful_chunks = 7`. -/
theorem C7_all_chunks_exist :
    (∀ (st : ScanState) (r : UploadAttempt) (n : Nat),
      assembleAttempt st = some r →
      st.all_chunks_already_exist = true → st.total_chunks = some n →
      r.successful_chunks = some n) ∧
    (scanWindow exC7 0 PaymentType.merkle = .ok exC7State ∧
      exC7State.successful_chunk_addresses = [] ∧
      exC7State.all_chunks_already_exist = true ∧
      exC7State.total_chunks = some 7 ∧
      parse_upload_attempt exC7 0 PaymentType.merkle = .ok (some exC7Attempt) ∧
      exC7Attempt.successful_chunks = some 7) := by
  refine ⟨?_, rfl, rfl, rfl, rfl, rfl, rfl⟩
  intro st r n h hflag hv
  obtain ⟨-, -, -, -, -, -, -, -, -, hsucc⟩ := assembleAttempt_eq_some h
  rw [hv] at hsucc
  rw [hsucc, hflag]
  simp

/-- C7 witness: the assembler rule applied to the concrete final state. -/
theorem C7_witness :
    assembleAttempt exC7State = some exC7Attempt ∧
    exC7Attempt.successful_chunks = some 7 :=
  ⟨rfl, C7_all_chunks_exist.1 exC7State exC7Attempt 7 rfl rfl rfl⟩

/-! ## Claim C10 -/

/-- A window whose first `File/Directory:` line has a single space after
the label: the file name is captured as the empty string, and the otherwise
complete window emits nothing. -/
def exC10 : List String :=
  [ "Dec 27 10:13:00 =========================================="
  , "Uploading Content"
  , "File/Directory: "
  , "Size: 9KB"
  , "Successfully uploaded something"
  , "Elapsed time: 4.5 seconds" ]

def exC10State : ScanState :=
  { file_name := some ""
    size_kb := some 9
    success := true
    address := none
    duration_seconds := some "4.5"
    duration_found_at := some 5
    start_time := some "Dec 27 10:13:00"
    total_chunks := none
    successful_chunk_addresses := []
    all_chunks_already_exist := false }

/-- C10: a first `File/Directory:` line whose remainder is nonempty pure
whitespace captures `file_name = ""`; a captured file name is never
replaced by a later line; with `file_name = ""` the failure override can
never fire (success can only be turned on, never off, by a line); and the
concrete whitespace window emits no record although `size_kb`,
`duration_seconds` and `start_time` are all captured. -/
theorem C10_empty_file_name :
    (∀ (p : PaymentType) (i : Nat) (line : String) (st st' : ScanState)
      (rest : List Char),
      stepLine p i line st = .ok st' → st.file_name = none →
      afterFirst "File/Directory:".data line.data = some rest → rest ≠ [] →
      (∀ c ∈ rest, pyIsSpace c = true) → st'.file_name = some "") ∧
    (∀ (p : PaymentType) (i : Nat) (line : String) (st st' : ScanState) (f : String),
      stepLine p i line st = .ok st' → st.file_name = some f →
      st'.file_name = some f) ∧
    (∀ (p : PaymentType) (i : Nat) (line : String) (st st' : ScanState),
      stepLine p i line st = .ok st' → st.file_name = some "" →
      st'.success = ((strContains line.data "Successfully uploaded" &&
        !strContains line.data "Failed") || st.success)) ∧
    (scanWindow exC10 0 PaymentType.singleNode = .ok exC10State ∧
      exC10State.file_name = some "" ∧ exC10State.size_kb = some 9 ∧
      exC10State.duration_seconds = some "4.5" ∧
      exC10State.start_time = some "Dec 27 10:13:00" ∧
      parse_upload_attempt exC10 0 PaymentType.singleNode = .ok none) := by
  refine ⟨?_, ?_, ?_, rfl, rfl, rfl, rfl, rfl, rfl⟩
  · intro p i line st st' rest h hv hafter hne hall
    have hfn := (stepLine_ok_fields h).1
    obtain ⟨pre, hdec⟩ := afterFirst_some hafter
    have hcont : strContains line.data "File/Directory:" = true :=
      infixOfB_intro pre rest hdec
    have hstrip : pyStrip rest = [] := by
      unfold pyStrip
      have h1 : rest.dropWhile pyIsSpace = [] :=
        List.dropWhile_eq_nil_iff.mpr (fun x hx => hall x hx)
      rw [h1]
      rfl
    have hsearch : fileNameSearch line.data = some "" := by
      unfold fileNameSearch
      rw [hafter]
      show (if rest.isEmpty = true then none
            else some (String.mk (pyStrip rest))) = some ""
      rw [if_neg (by simpa using hne), hstrip]
    rw [hfn, hv]
    simp [newFileName, hcont, hsearch]
  · intro p i line st st' f h hv
    have hfn := (stepLine_ok_fields h).1
    rw [hfn, hv]
    simp [newFileName]
  · intro p i line st st' h hv
    have hsuc := (stepLine_ok_fields h).2.2.1
    have hfn : newFileName line.data st.file_name = some "" := by
      rw [hv]
      simp [newFileName]
    rw [hsuc, hfn]
    unfold newSuccess
    rw [if_neg (by simp [pyTruthy])]
    by_cases hc : (strContains line.data "Successfully uploaded" &&
        !strContains line.data "Failed") = true
    · rw [if_pos hc, hc]
      rfl
    · have hc' : (strContains line.data "Successfully uploaded" &&
          !strContains line.data "Failed") = false := by
        revert hc
        cases strContains line.data "Successfully uploaded" &&
          !strContains line.data "Failed" <;> simp
      rw [if_neg (by simp [hc']), hc']
      rfl

/-- C10 witness: the whitespace-capture rule applied to the concrete
`File/Directory: ` line. -/
theorem C10_witness :
    stepLine PaymentType.singleNode 2 "File/Directory: " (initState exC10 5) =
      .ok { initState exC10 5 with file_name := some "" } ∧
    ({ initState exC10 5 with file_name := some "" } : ScanState).file_name = some "" :=
  ⟨rfl, C10_empty_file_name.1 PaymentType.singleNode 2 "File/Directory: "
    (initState exC10 5) { initState exC10 5 with file_name := some "" }
    [' '] rfl rfl rfl (by decide) (by decide)⟩

/-! ## Claim C3 -/

/-- A window with the duration at index 4 and a success line at index 10,
which is six — not five — lines after the duration line. -/
def exC3A : List String :=
  [ "Dec 27 10:12:00 =========================================="
  , "Uploading Content"
  , "File/Directory: s.bin"
  , "Size: 5KB"
  , "Elapsed time: 1.0 seconds"
  , "x", "x", "x", "x", "x"
  , "Successfully uploaded s.bin" ]

/-- Identical to `exC3A` through index 9 (five lines past the duration
line); only index 10 differs. -/
def exC3B : List String :=
  [ "Dec 27 10:12:00 =========================================="
  , "Uploading Content"
  , "File/Directory: s.bin"
  , "Size: 5KB"
  , "Elapsed time: 1.0 seconds"
  , "x", "x", "x", "x", "x"
  , "x" ]

def exC3AState : ScanState :=
  { file_name := some "s.bin"
    size_kb := some 5
    success := true
    address := none
    duration_seconds := some "1.0"
    duration_found_at := some 4
    start_time := some "Dec 27 10:12:00"
    total_chunks := none
    successful_chunk_addresses := []
    all_chunks_already_exist := false }

def exC3AAttempt : UploadAttempt :=
  { file_name := "s.bin"
    size_kb := 5
    success := true
    address := none
    duration_seconds := "1.0"
    start_time := "Dec 27 10:12:00"
    total_chunks := none
    successful_chunks := none }

def exC3BAttempt : UploadAttempt :=
  { file_name := "s.bin"
    size_kb := 5
    success := false
    address := none
    duration_seconds := "1.0"
    start_time := "Dec 27 10:12:00"
    total_chunks := none
    successful_chunks := none }

/-- C3 counterexample: two logs that agree on every line up to five lines
past the duration line (found at index 4) but differ at index 10 — six
lines past it — produce different emitted records, so the line six past
the duration line does influence the record. -/
theorem C3_counterexample :
    exC3A.take 10 = exC3B.take 10 ∧
    exC3A.length = exC3B.length ∧
    firstHitN elapsedHit exC3A 0 (maxLinesOf exC3A 0 - 0) = some 4 ∧
    parse_upload_attempt exC3A 0 PaymentType.singleNode = .ok (some exC3AAttempt) ∧
    parse_upload_attempt exC3B 0 PaymentType.singleNode = .ok (some exC3BAttempt) ∧
    exC3AAttempt.success = true ∧ exC3BAttempt.success = false :=
  ⟨rfl, rfl, rfl, rfl, rfl, rfl, rfl⟩

/-- C3 (amended): the scan examines only lines in
`[startIdx, min (startIdx + 10000) length)`; a non-raising scan is
insensitive to every line at or beyond its exit index; and that exit index
is exactly `stopSpec + 1`, where `stopSpec` — the index of the last
processed line — is the first of: six lines after the first elapsed-time
line (the break test runs after the line has been processed, so the line
six past the duration line is still scanned), the first banner divider more
than two lines after the start (that line itself still processed), or the
end of the window. -/
theorem C3_window_scan_bounds :
    (∀ (lines lines' : List String) (startIdx : Nat) (p : PaymentType),
      lines.length = lines'.length →
      (∀ j, j < maxLinesOf lines startIdx → startIdx ≤ j →
        lines.getD j "" = lines'.getD j "") →
      parse_upload_attempt lines startIdx p = parse_upload_attempt lines' startIdx p) ∧
    (∀ (lines lines' : List String) (startIdx : Nat) (p : PaymentType)
      (st : ScanState) (e : Nat),
      lines.length = lines'.length →
      scanWindowE lines startIdx p = .ok (st, e) →
      (∀ j, j < e → startIdx ≤ j → lines.getD j "" = lines'.getD j "") →
      parse_upload_attempt lines' startIdx p = parse_upload_attempt lines startIdx p) ∧
    (∀ (lines : List String) (startIdx : Nat) (p : PaymentType)
      (st : ScanState) (e : Nat),
      startIdx < lines.length → scanWindowE lines startIdx p = .ok (st, e) →
      e = stopSpec lines startIdx + 1) :=
  ⟨parse_upload_attempt_window_local,
   fun lines lines' startIdx p _ _ h1 h2 h3 =>
     parse_upload_attempt_stop_local lines lines' startIdx p h1 h2 h3,
   fun _ _ _ _ _ h1 h2 => scanWindowE_exit h1 h2⟩

/-- C3 witness: on the concrete window the exit index is 11, one past
`stopSpec = 10 = 4 + 6`, and a log differing only at index 11 and beyond
would parse identically. -/
theorem C3_witness :
    scanWindowE exC3A 0 PaymentType.singleNode = .ok (exC3AState, 11) ∧
    stopSpec exC3A 0 = 10 ∧
    (11 : Nat) = stopSpec exC3A 0 + 1 :=
  ⟨rfl, rfl, C3_window_scan_bounds.2.2 exC3A 0 PaymentType.singleNode exC3AState 11
    (by decide) rfl⟩

/-! ## Claims C8 and C9 -/

theorem repairRowsFold_append (sIdx cIdx : Nat) :
    ∀ (xs ys : List (List String)) (acc : Nat × Nat × Nat),
      repairRowsFold sIdx cIdx (xs ++ ys) acc =
        (match repairRowsFold sIdx cIdx xs acc with
         | .error e => .error e
         | .ok acc' => repairRowsFold sIdx cIdx ys acc') := by
  intro xs
  induction xs with
  | nil => intro ys acc; rfl
  | cons row rest ih =>
    intro ys acc
    rcases hs : repairRowStep sIdx cIdx acc row with u | acc'
    · simp only [List.cons_append, repairRowsFold, hs]
    · simp only [List.cons_append, repairRowsFold, hs]
      exact ih ys acc'

/-- A row that the guard of source line 55 skips leaves the step unchanged. -/
theorem repairRowStep_skip {sIdx cIdx : Nat} {acc : Nat × Nat × Nat}
    {row : List String} (h : row = [] ∨ row.length ≤ max sIdx cIdx) :
    repairRowStep sIdx cIdx acc row = .ok acc := by
  unfold repairRowStep
  rcases h with h | h
  · rw [if_pos (by simp [h])]
  · rw [if_pos (by simp [h])]

/-- The Boolean skip guard is false for a processed row. -/
theorem repairRow_guard_false {sIdx cIdx : Nat} {row : List String}
    (h : ¬(row = [] ∨ row.length ≤ max sIdx cIdx)) :
    (row.isEmpty || decide (row.length ≤ max sIdx cIdx)) = false := by
  simp only [not_or, not_le] at h
  obtain ⟨h1, h2⟩ := h
  rcases row with _ | ⟨c, cs⟩
  · exact absurd rfl h1
  · simp only [List.isEmpty_cons, Bool.false_or]
    exact decide_eq_false (by omega)

/-- C8: a repair-CSV row that is empty or too short for the configured
column indices is skipped — it contributes to no count and does not make
the file fail; every processed row is classified by its status column,
stripped and lowercased, against `"success"` and `"failed"`; and
`get_host_summary` counts `network_scan_repair_*` files with status column
3 / cost column 4 and `initial_repair_*` files with status column 2 / cost
column 3. -/
theorem C8_repair_row_handling :
    (∀ (sIdx cIdx : Nat) (pre post : List (List String)) (row : List String),
      (row = [] ∨ row.length ≤ max sIdx cIdx) →
      count_repair_csv_by_status (pre ++ row :: post) sIdx cIdx =
        count_repair_csv_by_status (pre ++ post) sIdx cIdx) ∧
    (∀ (sIdx cIdx : Nat) (acc : Nat × Nat × Nat) (row : List String),
      ¬(row = [] ∨ row.length ≤ max sIdx cIdx) →
      (pyLower (pyStripS (row.getD sIdx "")) = "failed" →
        repairRowStep sIdx cIdx acc row = .ok (acc.1, acc.2.1 + 1, acc.2.2)) ∧
      (pyLower (pyStripS (row.getD sIdx "")) ≠ "success" →
        pyLower (pyStripS (row.getD sIdx "")) ≠ "failed" →
        repairRowStep sIdx cIdx acc row = .ok acc) ∧
      (∀ v, pyLower (pyStripS (row.getD sIdx "")) = "success" →
        pyFloatParse (pyStripS (row.getD cIdx "")) = some v →
        repairRowStep sIdx cIdx acc row =
          .ok (acc.1 + 1, acc.2.1, if v.ne0 then acc.2.2 + 1 else acc.2.2))) ∧
    (∀ (file : List (List String)) (s f pc : Nat),
      count_repair_csv_by_status file 3 4 = some (s, f, pc) →
      hostRepairTotals [file] [] = (s, f, pc)) ∧
    (∀ (file : List (List String)) (s f pc : Nat),
      count_repair_csv_by_status file 2 3 = some (s, f, pc) →
      hostRepairTotals [] [file] = (s, f, pc)) := by
  refine ⟨?_, ?_, ?_, ?_⟩
  · intro sIdx cIdx pre post row h
    unfold count_repair_csv_by_status
    rw [repairRowsFold_append, repairRowsFold_append]
    rcases hs : repairRowsFold sIdx cIdx pre (0, 0, 0) with u | acc
    · rfl
    · show (match repairRowsFold sIdx cIdx (row :: post) acc with
            | .ok a => some a
            | .error _ => none) =
          (match repairRowsFold sIdx cIdx post acc with
            | .ok a => some a
            | .error _ => none)
      rw [show repairRowsFold sIdx cIdx (row :: post) acc =
          (match repairRowStep sIdx cIdx acc row with
           | .error e => .error e
           | .ok acc' => repairRowsFold sIdx cIdx post acc') from rfl,
        repairRowStep_skip h]
  · intro sIdx cIdx acc row h
    have hg := repairRow_guard_false h
    refine ⟨?_, ?_, ?_⟩
    · intro hfail
      unfold repairRowStep
      rw [if_neg (by rw [hg]; simp), if_neg (by rw [hfail]; decide), if_pos hfail]
    · intro hns hnf
      unfold repairRowStep
      rw [if_neg (by rw [hg]; simp), if_neg hns, if_neg hnf]
    · intro v hsucc hfloat
      unfold repairRowStep
      rw [if_neg (by rw [hg]; simp), if_pos hsucc, hfloat]
  · intro file s f pc h
    unfold hostRepairTotals
    simp [addFileCounts, h]
  · intro file s f pc h
    unfold hostRepairTotals
    simp [addFileCounts, h]

/-- C8 witness: a too-short row in the middle of a concrete file is
skipped, and the remaining rows are classified by status. -/
theorem C8_witness :
    count_repair_csv_by_status ([["c1", "x", "Success", "0.5", "ok"]] ++
        ["bad"] :: [["c2", "y", "FAILED", "0", ""]]) 2 3 =
      count_repair_csv_by_status ([["c1", "x", "Success", "0.5", "ok"]] ++
        [["c2", "y", "FAILED", "0", ""]]) 2 3 ∧
    count_repair_csv_by_status ([["c1", "x", "Success", "0.5", "ok"]] ++
        [["c2", "y", "FAILED", "0", ""]]) 2 3 = some (1, 1, 1) :=
  ⟨C8_repair_row_handling.1 2 3 [["c1", "x", "Success", "0.5", "ok"]]
    [["c2", "y", "FAILED", "0", ""]] ["bad"] (Or.inr (by decide)), by rfl⟩

/-- C9: once the row loop reaches a processed row whose status is
`"success"` but whose stripped cost column is not parseable as a Python
float, the raised exception aborts the whole file and
`count_repair_csv_by_status` returns `(None, None, None)`, discarding the
counts accumulated from every earlier row. -/
theorem C9_malformed_cost_fatal (sIdx cIdx : Nat) (pre post : List (List String))
    (row : List String) (acc : Nat × Nat × Nat)
    (hpre : repairRowsFold sIdx cIdx pre (0, 0, 0) = .ok acc)
    (hrow : ¬(row = [] ∨ row.length ≤ max sIdx cIdx))
    (hstatus : pyLower (pyStripS (row.getD sIdx "")) = "success")
    (hcost : pyFloatParse (pyStripS (row.getD cIdx "")) = none) :
    count_repair_csv_by_status (pre ++ row :: post) sIdx cIdx = none := by
  have hstep : repairRowStep sIdx cIdx acc row = .error () := by
    have hg := repairRow_guard_false hrow
    unfold repairRowStep
    rw [if_neg (by rw [hg]; simp), if_pos hstatus, hcost]
  unfold count_repair_csv_by_status
  rw [repairRowsFold_append, hpre]
  show (match repairRowsFold sIdx cIdx (row :: post) acc with
        | .ok a => some a
        | .error _ => none) = none
  rw [show repairRowsFold sIdx cIdx (row :: post) acc =
      (match repairRowStep sIdx cIdx acc row with
       | .error e => .error e
       | .ok acc' => repairRowsFold sIdx cIdx post acc') from rfl, hstep]

/-- C9 witness: a good row followed by a `success` row with unparseable
cost `"abc"` makes the whole file's counts `None`. -/
theorem C9_witness :
    count_repair_csv_by_status ([["a", "b", "success", "1.0"]] ++
      ["a", "b", "success", "abc"] :: []) 2 3 = none :=
  C9_malformed_cost_fatal 2 3 [["a", "b", "success", "1.0"]] []
    ["a", "b", "success", "abc"] (1, 0, 1) (by rfl) (by decide) rfl rfl

end SnDeploy
